import Mathlib

/-!
# Verification of the Football League Scheduling Application

Shallow embedding of the core of the repository:

* `src/src/domain/team.py`    — `Team` (identity + cumulative statistics)
* `src/src/domain/match.py`   — `Match`
* `src/src/domain/league.py`  — `League` with roster mutation operations
* `src/src/domain/table.py`   — `LeagueTable` (standings engine)
* `src/src/scheduling/scheduler.py` — round-robin pairing and home/away
  balancing
* `src/src/results_manager.py` — `ResultsManager.record_result`
* `src/member_b_abhishek/fixture_scheduler.py` — fixture assembly,
  validation and regeneration

Python integers are embedded as `Int` (`Nat` where the source value is a
count/index produced by `range`/`len`), optional values as `Option`,
`(success, message)` results as `Bool × String` pairs, and in-place object
mutation as explicit state passing.  Python `dict`s with default-0
initialisation are embedded as total functions, and `dict`s used as
last-write-wins key/value stores as head-insertion association lists.
-/

namespace FootballLeague

/-! ### Python string primitives

Embedded over `String.data` (the list of code points) so that they
evaluate inside the kernel: Python `str.strip`, `str.lower`,
`str.replace(" ", "_")` and lexicographic string comparison (Python
compares strings code point by code point). -/

/-- Python `str.strip()`. -/
def pyStrip (s : String) : String :=
  ⟨((s.data.dropWhile Char.isWhitespace).reverse.dropWhile Char.isWhitespace).reverse⟩

/-- Python `str.lower()` (code-point-wise lowering, as for ASCII). -/
def pyLower (s : String) : String :=
  ⟨s.data.map Char.toLower⟩

/-- Python `str.replace(" ", "_")` (single-character pattern). -/
def pyUnderscore (s : String) : String :=
  ⟨s.data.map (fun ch => if ch = ' ' then '_' else ch)⟩

/-- Lexicographic `≤` on code-point lists (Python string comparison). -/
def strLeB : List Char → List Char → Bool
  | [], _ => true
  | _ :: _, [] => false
  | a :: as', b :: bs =>
      if a < b then true
      else if a = b then strLeB as' bs
      else false

/-- Python `x <= y` on strings. -/
def pyStrLe (x y : String) : Bool :=
  strLeB x.data y.data

/-- `Team` from `src/src/domain/team.py`: identity plus cumulative
statistics.  `__post_init__` derives `team_id` from the name when it is
falsy; after construction `team_id` is always a string, so it is embedded
as `String` (with `""` for the falsy case). -/
structure Team where
  name : String
  stadium : String
  team_id : String
  played : Int := 0
  won : Int := 0
  drawn : Int := 0
  lost : Int := 0
  goals_for : Int := 0
  goals_against : Int := 0
  points : Int := 0
deriving DecidableEq, Repr

/-- `Team.__post_init__`: generate `team_id` from the name when the given
id is falsy (`None`/`""`). -/
def postInitId (name tid : String) : String :=
  if tid = "" then pyUnderscore (pyLower name) else tid

/-- Construct a team the way Python's dataclass constructor does,
running `__post_init__` on the `team_id` field. -/
def mkTeam (name stadium tid : String) : Team :=
  { name := name, stadium := stadium, team_id := postInitId name tid }

/-- `Team.goal_difference` (derived property). -/
def Team.goal_difference (t : Team) : Int :=
  t.goals_for - t.goals_against

/-- `Team.validate` from `src/src/domain/team.py`. -/
def Team.validate (t : Team) : Bool × String :=
  if t.name = "" ∨ (pyStrip t.name).length < 2 then
    (false, "Team name must be at least 2 characters")
  else if t.name.length > 50 then
    (false, "Team name must not exceed 50 characters")
  else if t.stadium = "" ∨ (pyStrip t.stadium).length < 2 then
    (false, "Stadium name must be at least 2 characters")
  else if t.stadium.length > 100 then
    (false, "Stadium name must not exceed 100 characters")
  else
    (true, "")

/-- `Match` from `src/src/domain/match.py`. -/
structure Match where
  match_id : String
  home_team_id : String
  away_team_id : String
  week : Int
  home_team_name : String := ""
  away_team_name : String := ""
  home_score : Option Int := none
  away_score : Option Int := none
  played : Bool := false
  scheduled_date : Option String := none
deriving DecidableEq, Repr

/-- `Match.is_played`: `played` and both scores non-null. -/
def Match.is_played (m : Match) : Bool :=
  m.played && m.home_score.isSome && m.away_score.isSome

/-- `Match.record_result`: raises `ValueError` on a negative score
(embedded as `none`), otherwise sets the scores and the `played` flag. -/
def Match.recordResult (m : Match) (home_score away_score : Int) : Option Match :=
  if home_score < 0 ∨ away_score < 0 then none
  else some { m with home_score := some home_score,
                     away_score := some away_score,
                     played := true }

/-- `League` from `src/src/domain/league.py`. -/
structure League where
  name : String
  season : String
  teams : List Team := []
  «matches» : List Match := []
  fixtures_generated : Bool := false
deriving DecidableEq, Repr

/-- `League.get_team_by_id`: first team with the given id. -/
def League.get_team_by_id (L : League) (team_id : String) : Option Team :=
  L.teams.find? (fun t => t.team_id = team_id)

/-- `League.add_team` (A2): duplicate-id check, case-insensitive
duplicate-name check, then `Team.validate`; on success the team is
appended.  Note: this operation does **not** consult
`fixtures_generated`. -/
def League.add_team (L : League) (team : Team) : League × Bool × String :=
  if L.teams.any (fun t => t.team_id = team.team_id) then
    (L, false, "Team '" ++ team.name ++ "' already exists in the league")
  else if L.teams.any (fun t => pyLower t.name = pyLower team.name) then
    (L, false, "A team with name '" ++ team.name ++ "' already exists")
  else
    match team.validate with
    | (false, error_msg) => (L, false, error_msg)
    | (true, _) =>
        ({ L with teams := L.teams ++ [team] }, true,
         "Team '" ++ team.name ++ "' added successfully")

/-- `League.remove_team` (A4): rejected while `fixtures_generated` is
set; otherwise removes every team with the given id. -/
def League.remove_team (L : League) (team_id : String) : League × Bool × String :=
  if L.fixtures_generated then
    (L, false, "Cannot remove teams after fixtures are generated")
  else
    match L.get_team_by_id team_id with
    | none => (L, false, "Team with ID '" ++ team_id ++ "' not found")
    | some _ =>
        ({ L with teams := L.teams.filter (fun t => ¬ t.team_id = team_id) },
         true, "Team removed successfully")

/-- Python truthiness of an `Optional[str]` argument (`if name:`). -/
def strTruthy : Option String → Bool
  | none => false
  | some s => s ≠ ""

/-- Apply the field updates of `League.edit_team` to one team. -/
def applyEdit (t : Team) (name stadium : Option String) : Team :=
  let t := if strTruthy name then { t with name := name.getD "" } else t
  if strTruthy stadium then { t with stadium := stadium.getD "" } else t

/-- Replace the first team with the given id (in-place mutation of the
object returned by `get_team_by_id`). -/
def updateFirstTeam (ts : List Team) (team_id : String) (f : Team → Team) : List Team :=
  match ts with
  | [] => []
  | t :: rest =>
      if t.team_id = team_id then f t :: rest
      else t :: updateFirstTeam rest team_id f

/-- `League.edit_team` (A4): rejected while `fixtures_generated` is set;
otherwise mutates the found team's truthy fields in place and then
re-validates (the mutation is kept even when re-validation fails, as in
the source). -/
def League.edit_team (L : League) (team_id : String)
    (name stadium : Option String) : League × Bool × String :=
  if L.fixtures_generated then
    (L, false, "Cannot edit teams after fixtures are generated")
  else
    match L.get_team_by_id team_id with
    | none => (L, false, "Team with ID '" ++ team_id ++ "' not found")
    | some t =>
        let t' := applyEdit t name stadium
        let L' := { L with teams := updateFirstTeam L.teams team_id (fun _ => t') }
        match t'.validate with
        | (false, error_msg) => (L', false, error_msg)
        | (true, _) => (L', true, "Team updated successfully")

/-- `League.validate_for_scheduling` (A9). -/
def League.validate_for_scheduling (L : League) : Bool × String :=
  if L.teams.length < 2 then
    (false, "League must have at least 2 teams to generate fixtures")
  else if L.teams.length % 2 ≠ 0 then
    (false, "League must have an even number of teams for round-robin scheduling")
  else
    match L.teams.find? (fun t => ¬ t.validate.1) with
    | some t => (false, "Team '" ++ t.name ++ "' validation failed: " ++ t.validate.2)
    | none => (true, "League is valid for scheduling")

/-! ## Standings engine — `src/src/domain/table.py` -/

/-- `LeagueTable.update_from_match` (C2): in-place mutation of the two
team objects, embedded as returning the updated `(home_team, away_team)`
pair.  Inside the guarded branch the scores are non-null (`is_played`),
so `Option.getD 0` reads the actual values. -/
def update_from_match (m : Match) (home_team away_team : Team) : Team × Team :=
  if ¬ m.is_played then (home_team, away_team)
  else
    let hs := m.home_score.getD 0
    let as' := m.away_score.getD 0
    let home_team := { home_team with
      played := home_team.played + 1,
      goals_for := home_team.goals_for + hs,
      goals_against := home_team.goals_against + as' }
    let away_team := { away_team with
      played := away_team.played + 1,
      goals_for := away_team.goals_for + as',
      goals_against := away_team.goals_against + hs }
    if hs > as' then
      ({ home_team with won := home_team.won + 1, points := home_team.points + 3 },
       { away_team with lost := away_team.lost + 1 })
    else if hs < as' then
      ({ home_team with lost := home_team.lost + 1 },
       { away_team with won := away_team.won + 1, points := away_team.points + 3 })
    else
      ({ home_team with drawn := home_team.drawn + 1, points := home_team.points + 1 },
       { away_team with drawn := away_team.drawn + 1, points := away_team.points + 1 })

/-- The Python sort key of `LeagueTable.get_rankings`:
`(-points, -goal_difference, -goals_for, name.lower())`, compared
lexicographically (Python tuple comparison). -/
def rankKey (t : Team) : Int ×ₗ (Int ×ₗ (Int ×ₗ String)) :=
  toLex (-t.points, toLex (-(t.goals_for - t.goals_against),
    toLex (-t.goals_for, pyLower t.name)))

/-- Strict comparison of two teams by the Python sort key. -/
def rankLt (a b : Team) : Prop := rankKey a < rankKey b

instance (a b : Team) : Decidable (rankLt a b) := by
  unfold rankLt; infer_instance

/-- Stable insertion used to model Python's stable `sorted`: a later
element is inserted after every earlier element whose key is strictly
smaller and before the first earlier element whose key is not. -/
def insertRanked (x : Team) : List Team → List Team
  | [] => [x]
  | y :: l => if rankLt y x then y :: insertRanked x l else x :: y :: l

/-- `LeagueTable.get_rankings` (C3, C4): Python's stable `sorted` by
`rankKey`, embedded as a stable insertion sort (extensionally equal to
any stable sort by the same key). -/
def get_rankings (teams : List Team) : List Team :=
  teams.foldr insertRanked []

/-- One row of `LeagueTable.get_table_data`. -/
structure TableRow where
  position : Nat
  team : String
  played : Int
  won : Int
  drawn : Int
  lost : Int
  goals_for : Int
  goals_against : Int
  goal_difference : Int
  points : Int
deriving DecidableEq, Repr

/-- `LeagueTable.get_table_data` (C4): enumerate the rankings starting
at position 1. -/
def get_table_data (teams : List Team) : List TableRow :=
  (get_rankings teams).enum.map (fun p =>
    { position := p.1 + 1,
      team := p.2.name,
      played := p.2.played,
      won := p.2.won,
      drawn := p.2.drawn,
      lost := p.2.lost,
      goals_for := p.2.goals_for,
      goals_against := p.2.goals_against,
      goal_difference := p.2.goal_difference,
      points := p.2.points })

/-! ## Results manager — `src/src/results_manager.py` -/

/-- `ResultsManager`: `league` plus whether `self.table` was initialised
(the constructor / `set_league` create the table only when the league
has teams; the table shares the league's team list by reference). -/
structure ResultsManager where
  league : Option League
  tableInit : Bool
deriving DecidableEq, Repr

/-- `ResultsManager.set_league`. -/
def ResultsManager.set_league (_rm : ResultsManager) (L : League) : ResultsManager :=
  { league := some L, tableInit := L.teams ≠ [] }

/-- Replace the first match with the given id (in-place mutation of the
object found by the `next(...)` scan). -/
def updateFirstMatch (ms : List Match) (match_id : String) (f : Match → Match) : List Match :=
  match ms with
  | [] => []
  | m :: rest =>
      if m.match_id = match_id then f m :: rest
      else m :: updateFirstMatch rest match_id f

/-- `ResultsManager.record_result`: guards, then `Match.record_result`
on the found match (mutating it in the league's match list), then team
lookup, then `update_from_match` on the two team objects (mutating them
in the league's team list).  The team lookup happens **after** the match
has been mutated, exactly as in the source. -/
def ResultsManager.record_result (rm : ResultsManager) (match_identifier : String)
    (home_score away_score : Int) : ResultsManager × Bool × String :=
  match rm.league with
  | none => (rm, false, "No league set")
  | some L =>
    if ¬ rm.tableInit then (rm, false, "League table not initialized")
    else
      match L.«matches».find? (fun m => m.match_id = match_identifier) with
      | none => (rm, false, "Match '" ++ match_identifier ++ "' not found")
      | some m =>
        if m.played then
          (rm, false, "Match already played (score: " ++
            toString (m.home_score.getD 0) ++ "-" ++ toString (m.away_score.getD 0) ++ ")")
        else if home_score < 0 ∨ away_score < 0 then
          (rm, false, "Scores cannot be negative")
        else
          let m' := { m with home_score := some home_score,
                             away_score := some away_score, played := true }
          let L1 := { L with «matches» := updateFirstMatch L.«matches» match_identifier (fun _ => m') }
          match L1.get_team_by_id m.home_team_id, L1.get_team_by_id m.away_team_id with
          | some home_team, some away_team =>
              let p := update_from_match m' home_team away_team
              let ts2 := updateFirstTeam (updateFirstTeam L1.teams m.home_team_id (fun _ => p.1))
                m.away_team_id (fun _ => p.2)
              let L2 := { L1 with teams := ts2 }
              ({ rm with league := some L2 }, true,
               "Result recorded: " ++ m.home_team_name ++ " " ++ toString home_score ++
               "-" ++ toString away_score ++ " " ++ m.away_team_name)
          | _, _ => ({ rm with league := some L1 }, false, "Team not found in league")

/-! ## Schedule generator — `src/src/scheduling/scheduler.py` -/

/-- Fallback team used to embed Python list indexing (`team_list[i]`);
every in-context access is in range, so the fallback is never read. -/
def defaultTeam : Team :=
  { name := "", stadium := "", team_id := "" }

/-- The synthetic `Team(name="BYE", stadium="N/A", team_id="bye")`
inserted for an odd team count. -/
def byeTeam : Team :=
  { name := "BYE", stadium := "N/A", team_id := "bye" }

/-- `team_list = [team_list[0]] + [team_list[-1]] + team_list[1:-1]`
(rotate all teams except the first one).  In context the list always has
at least two elements. -/
def pyRotate (l : List Team) : List Team :=
  l.headD defaultTeam :: l.getLastD defaultTeam :: (l.drop 1).dropLast

/-- One round of the circle method: pair position `i` with position
`n - 1 - i`, skip pairs with the bye team, orient by
`(round_num + i) % 2`. -/
def mkRound (n round_num : Nat) (team_list : List Team) : List (Team × Team) :=
  (List.range (n / 2)).filterMap (fun i =>
    let team1 := team_list.getD i defaultTeam
    let team2 := team_list.getD (n - 1 - i) defaultTeam
    if team1.team_id = "bye" ∨ team2.team_id = "bye" then none
    else if (round_num + i) % 2 = 0 then some (team1, team2)
    else some (team2, team1))

/-- The `for round_num in range(n - 1)` loop: emit a round, then rotate.
`remaining` counts the iterations still to run. -/
def rrGo (n : Nat) : Nat → Nat → List Team → List (List (Team × Team))
  | 0, _, _ => []
  | remaining + 1, round_num, team_list =>
      mkRound n round_num team_list ::
        rrGo n remaining (round_num + 1) (pyRotate team_list)

/-- `generate_round_robin_pairs` from `src/src/scheduling/scheduler.py`:
circle method with bye-padding for an odd team count. -/
def generate_round_robin_pairs (teams : List Team) : List (List (Team × Team)) :=
  let n := teams.length
  if n < 2 then []
  else if n % 2 ≠ 0 then rrGo (n + 1) n 0 (teams ++ [byeTeam])
  else rrGo n (n - 1) 0 teams

/-- Streak state of `balance_home_away_rotation`: the two Python dicts,
embedded as total functions (absent keys are initialised to 0, which a
total function with default 0 models exactly). -/
structure Streaks where
  team_home_streak : String → Nat
  team_away_streak : String → Nat

/-- Pointwise function update (one dict store). -/
def updF (f : String → Nat) (k : String) (v : Nat) : String → Nat :=
  fun x => if x = k then v else f x

/-- Body of the inner loop of `balance_home_away_rotation` for one
match: decide the swap, then update the four streak counters in source
order. -/
def balStep (round_idx : Nat) (st : Streaks) (p : Team × Team) : Streaks × (Team × Team) :=
  let home := p.1
  let away := p.2
  let should_swap :=
    (st.team_home_streak home.team_id ≥ 2 ∧ st.team_away_streak away.team_id ≥ 2) ∨
    (st.team_home_streak home.team_id ≥ 2 ∧ st.team_home_streak away.team_id = 0)
  let q := if should_swap ∧ round_idx > 0 then (away, home) else p
  let home_id := q.1.team_id
  let away_id := q.2.team_id
  let hs1 := updF st.team_home_streak home_id (st.team_home_streak home_id + 1)
  let as1 := updF st.team_away_streak home_id 0
  let as2 := updF as1 away_id (as1 away_id + 1)
  let hs2 := updF hs1 away_id 0
  ({ team_home_streak := hs2, team_away_streak := as2 }, q)

/-- Inner loop of `balance_home_away_rotation` over one round. -/
def balRound (round_idx : Nat) (st : Streaks) :
    List (Team × Team) → Streaks × List (Team × Team)
  | [] => (st, [])
  | p :: ps =>
      let r := balStep round_idx st p
      let rest := balRound round_idx r.1 ps
      (rest.1, r.2 :: rest.2)

/-- Outer loop of `balance_home_away_rotation` over the rounds. -/
def balGo (st : Streaks) (round_idx : Nat) :
    List (List (Team × Team)) → List (List (Team × Team))
  | [] => []
  | rd :: rds =>
      let r := balRound round_idx st rd
      r.2 :: balGo r.1 (round_idx + 1) rds

/-- `balance_home_away_rotation` from `src/src/scheduling/scheduler.py`. -/
def balance_home_away_rotation (rounds : List (List (Team × Team))) :
    List (List (Team × Team)) :=
  if rounds = [] then rounds
  else balGo { team_home_streak := fun _ => 0, team_away_streak := fun _ => 0 } 0 rounds

/-! ## Fixture scheduler — `src/member_b_abhishek/fixture_scheduler.py`

The scheduler service is embedded with the league always set (every
claim posits one); the `if not self.league` guards of the source return
a failure without touching any state.  The calendar-date computation
(`strptime`/`timedelta`/`strftime`) is embedded as an oracle
`dateOf : Nat → String` mapping a week number to its date string. -/

/-- `tuple(sorted([x, y]))` on two strings (canonical unordered pair). -/
def sortPair (x y : String) : String × String :=
  if pyStrLe x y then (x, y) else (y, x)

/-- The canonical unordered team pair of a match. -/
def Match.pairKey (m : Match) : String × String :=
  sortPair m.home_team_id m.away_team_id

/-- `FixtureScheduler.generate_fixtures` (B1–B3): guards, round-robin
pairs, balancing, then one `Match` per pair with week numbers assigned
per round starting at 1. -/
def generate_fixtures (L : League) (dateOf : Nat → String) : League × Bool × String :=
  if L.teams.length < 2 then (L, false, "League must have at least 2 teams")
  else if L.teams.length % 2 ≠ 0 then (L, false, "League must have even number of teams")
  else
    let rounds := generate_round_robin_pairs L.teams
    let balanced := balance_home_away_rotation rounds
    let ms := balanced.enum.flatMap (fun ri =>
      ri.2.map (fun p =>
        ({ match_id := "w" ++ toString (ri.1 + 1) ++ "_" ++ p.1.team_id ++ "_vs_" ++ p.2.team_id,
           home_team_id := p.1.team_id,
           away_team_id := p.2.team_id,
           home_team_name := p.1.name,
           away_team_name := p.2.name,
           week := (ri.1 + 1 : Int),
           scheduled_date := some (dateOf (ri.1 + 1)) } : Match)))
    ({ L with «matches» := ms, fixtures_generated := true }, true,
     "Generated " ++ toString ms.length ++ " fixtures across " ++
       toString balanced.length ++ " weeks")

/-- Error string of a duplicate fixture. -/
def dupMsg (m : Match) : String :=
  "Duplicate match: " ++ m.home_team_name ++ " vs " ++ m.away_team_name

/-- The duplicate scan of `validate_fixtures`: a `seen_pairs` set
(embedded as a list) accumulates canonical pairs; every match whose pair
was already seen contributes one error. -/
def dupScan : List Match → List (String × String) → List String
  | [], _ => []
  | m :: ms, seen =>
      if m.pairKey ∈ seen then dupMsg m :: dupScan ms seen
      else dupScan ms (m.pairKey :: seen)

/-- The self-match scan of `validate_fixtures`. -/
def selfErrors (ms : List Match) : List String :=
  ms.filterMap (fun m =>
    if m.home_team_id = m.away_team_id then
      some ("Invalid match: team playing itself in " ++ m.match_id)
    else none)

/-- The dangling-reference scan of `validate_fixtures`. -/
def refErrors (teams : List Team) (ms : List Match) : List String :=
  let valid_team_ids := teams.map Team.team_id
  ms.flatMap (fun m =>
    (if m.home_team_id ∈ valid_team_ids then []
     else ["Invalid home team ID in " ++ m.match_id ++ ": " ++ m.home_team_id]) ++
    (if m.away_team_id ∈ valid_team_ids then []
     else ["Invalid away team ID in " ++ m.match_id ++ ": " ++ m.away_team_id]))

/-- The per-week clash scan of `validate_fixtures`: `week_teams` maps a
week to the ids already seen there; both teams of a match are checked
before both are added. -/
def weekScan : List Match → (Int → List String) → List String
  | [], _ => []
  | m :: ms, week_teams =>
      (if m.home_team_id ∈ week_teams m.week then
        ["Week clash: " ++ m.home_team_name ++ " plays multiple times in week " ++
          toString m.week]
       else []) ++
      (if m.away_team_id ∈ week_teams m.week then
        ["Week clash: " ++ m.away_team_name ++ " plays multiple times in week " ++
          toString m.week]
       else []) ++
      weekScan ms (fun w =>
        if w = m.week then m.away_team_id :: m.home_team_id :: week_teams m.week
        else week_teams w)

/-- `FixtureScheduler.validate_fixtures` (B6): the four scans in source
order; valid iff the error list is empty. -/
def validate_fixtures (L : League) : Bool × List String :=
  let errors := dupScan L.«matches» [] ++ selfErrors L.«matches» ++
    refErrors L.teams L.«matches» ++ weekScan L.«matches» (fun _ => [])
  (errors.length = 0, errors)

/-- The `results_backup` dict of `auto_regenerate_fixtures`, keyed by
canonical pair with last-write-wins (head insertion + first-hit
lookup). -/
def buildBackup (ms : List Match) : List ((String × String) × (Int × Int × String)) :=
  ms.foldl (fun acc m =>
    if m.is_played then
      (m.pairKey, (m.home_score.getD 0, m.away_score.getD 0, m.home_team_id)) :: acc
    else acc) []

/-- Restore one preserved result onto a regenerated match, swapping the
score values when the home/away orientation flipped.  `none` models the
`ValueError` of `Match.record_result`; the `Nat` is the contribution to
the `restored` counter. -/
def restoreOne (backup : List ((String × String) × (Int × Int × String)))
    (m : Match) : Option (Match × Nat) :=
  match backup.lookup m.pairKey with
  | none => some (m, 0)
  | some (home_score, away_score, original_home_id) =>
      (if m.home_team_id = original_home_id then m.recordResult home_score away_score
       else m.recordResult away_score home_score).map (fun m' => (m', 1))

/-- The restore loop of `auto_regenerate_fixtures` over the regenerated
match list; `none` models an uncaught `ValueError` aborting the call. -/
def restoreAll (backup : List ((String × String) × (Int × Int × String))) :
    List Match → Option (List (Match × Nat))
  | [] => some []
  | m :: ms =>
      match restoreOne backup m with
      | none => none
      | some r =>
          match restoreAll backup ms with
          | none => none
          | some rs => some (r :: rs)

/-- `FixtureScheduler.auto_regenerate_fixtures` (B9): validate, snapshot
played results, regenerate, then reapply the snapshot.  The outer `none`
models an uncaught `ValueError` escaping the restore loop. -/
def auto_regenerate_fixtures (L : League) (dateOf : Nat → String) :
    Option (League × Bool × String) :=
  match L.validate_for_scheduling with
  | (false, error_msg) => some (L, false, "Cannot regenerate fixtures: " ++ error_msg)
  | (true, _) =>
      let results_backup := buildBackup L.«matches»
      let g := generate_fixtures L dateOf
      if g.2.1 ∧ results_backup ≠ [] then
        match restoreAll results_backup g.1.«matches» with
        | none => none
        | some rs =>
            let restored := (rs.map Prod.snd).sum
            let L' := { g.1 with «matches» := rs.map Prod.fst }
            some (L', g.2.1,
              if restored > 0 then
                g.2.2 ++ " (Restored " ++ toString restored ++ " match results)"
              else g.2.2)
      else some g

/-! ## Serialization — `to_dict` / `from_dict` (A5, A7, A8)

The JSON record of each entity is embedded as a structure with exactly
the emitted fields. -/

/-- The dictionary produced by `Team.to_dict`. -/
structure TeamDict where
  team_id : String
  name : String
  stadium : String
  played : Int
  won : Int
  drawn : Int
  lost : Int
  goals_for : Int
  goals_against : Int
  points : Int
deriving DecidableEq, Repr

/-- `Team.to_dict`. -/
def Team.to_dict (t : Team) : TeamDict :=
  { team_id := t.team_id, name := t.name, stadium := t.stadium,
    played := t.played, won := t.won, drawn := t.drawn, lost := t.lost,
    goals_for := t.goals_for, goals_against := t.goals_against, points := t.points }

/-- `Team.from_dict`: `cls(**data)`, which re-runs `__post_init__` on
the `team_id` field. -/
def Team.from_dict (d : TeamDict) : Team :=
  { name := d.name, stadium := d.stadium, team_id := postInitId d.name d.team_id,
    played := d.played, won := d.won, drawn := d.drawn, lost := d.lost,
    goals_for := d.goals_for, goals_against := d.goals_against, points := d.points }

/-- The dictionary produced by `Match.to_dict`. -/
structure MatchDict where
  match_id : String
  home_team_id : String
  away_team_id : String
  home_team_name : String
  away_team_name : String
  week : Int
  home_score : Option Int
  away_score : Option Int
  played : Bool
  scheduled_date : Option String
deriving DecidableEq, Repr

/-- `Match.to_dict`. -/
def Match.to_dict (m : Match) : MatchDict :=
  { match_id := m.match_id, home_team_id := m.home_team_id,
    away_team_id := m.away_team_id, home_team_name := m.home_team_name,
    away_team_name := m.away_team_name, week := m.week,
    home_score := m.home_score, away_score := m.away_score,
    played := m.played, scheduled_date := m.scheduled_date }

/-- `Match.from_dict`: `cls(**data)`, a plain field-by-field
reconstruction. -/
def Match.from_dict (d : MatchDict) : Match :=
  { match_id := d.match_id, home_team_id := d.home_team_id,
    away_team_id := d.away_team_id, home_team_name := d.home_team_name,
    away_team_name := d.away_team_name, week := d.week,
    home_score := d.home_score, away_score := d.away_score,
    played := d.played, scheduled_date := d.scheduled_date }

/-- The dictionary produced by `League.to_dict`. -/
structure LeagueDict where
  name : String
  season : String
  teams : List TeamDict
  «matches» : List MatchDict
  fixtures_generated : Bool
deriving DecidableEq, Repr

/-- `League.to_dict` (A5, A8). -/
def League.to_dict (L : League) : LeagueDict :=
  { name := L.name, season := L.season,
    teams := L.teams.map Team.to_dict,
    «matches» := L.«matches».map Match.to_dict,
    fixtures_generated := L.fixtures_generated }

/-- `League.from_dict` (A7). -/
def League.from_dict (d : LeagueDict) : League :=
  { name := d.name, season := d.season,
    teams := d.teams.map Team.from_dict,
    «matches» := d.«matches».map Match.from_dict,
    fixtures_generated := d.fixtures_generated }

/-! ## Concrete instances used by witnesses and counterexamples -/

/-- A valid concrete team. -/
def teamA : Team := { name := "Alpha", stadium := "Stadium A", team_id := "a" }

/-- A valid concrete team. -/
def teamB : Team := { name := "Beta", stadium := "Stadium B", team_id := "b" }

/-- A valid concrete team. -/
def teamC : Team := { name := "Gamma", stadium := "Stadium C", team_id := "c" }

/-- A valid concrete team. -/
def teamD : Team := { name := "Delta", stadium := "Stadium D", team_id := "d" }

/-- A league whose fixtures have been generated (roster should be
frozen). -/
def leagueFrozen : League :=
  { name := "Premier", season := "2024-2025", teams := [teamA],
    fixtures_generated := true }

/-- A match whose away team id does not resolve in the league. -/
def matchGhost : Match :=
  { match_id := "m1", home_team_id := "a", away_team_id := "ghost", week := 1 }

/-- A league containing `matchGhost` and only team `a`. -/
def leagueGhost : League :=
  { name := "L", season := "2024", teams := [teamA], «matches» := [matchGhost] }

/-- A results manager over `leagueGhost` (its table is initialised since
the league has teams). -/
def rmGhost : ResultsManager := { league := some leagueGhost, tableInit := true }

/-! ## C2 — roster freeze under `fixtures_generated` -/

/-- C2 (counterexample): `add_team` is not guarded by
`fixtures_generated` — on a league with generated fixtures, adding a
fresh valid team succeeds and changes the team list, so the claim that
all three roster mutations are rejected is false. -/
theorem c2_add_team_not_frozen :
    leagueFrozen.fixtures_generated = true ∧
    (leagueFrozen.add_team teamB).2.1 = true ∧
    (leagueFrozen.add_team teamB).1.teams = [teamA, teamB] := by
  decide

/-- C2 (amended): once `fixtures_generated` is true, `remove_team` and
`edit_team` return a failure with the corresponding message and leave
the league — in particular its team list — unchanged; `add_team` is not
guarded by the flag. -/
theorem c2_remove_edit_frozen (L : League) (team_id : String)
    (name stadium : Option String) (h : L.fixtures_generated = true) :
    L.remove_team team_id =
      (L, false, "Cannot remove teams after fixtures are generated") ∧
    L.edit_team team_id name stadium =
      (L, false, "Cannot edit teams after fixtures are generated") := by
  unfold League.remove_team League.edit_team
  rw [h]
  simp

/-- C2 witness: the frozen roster theorem applied to a concrete frozen
league. -/
theorem c2_remove_edit_frozen_witness :
    leagueFrozen.remove_team "a" =
      (leagueFrozen, false, "Cannot remove teams after fixtures are generated") ∧
    leagueFrozen.edit_team "a" (some "Alpha FC") none =
      (leagueFrozen, false, "Cannot edit teams after fixtures are generated") :=
  c2_remove_edit_frozen leagueFrozen "a" (some "Alpha FC") none rfl

/-! ## C3 — `record_result` failure paths -/

/-- C3: the code mutates the found match (scores set, `played := true`)
**before** resolving the two teams, so when a team id cannot be resolved
the call fails with "Team not found in league" but the match has already
been mutated, contradicting the claim that failing calls leave the
targeted match unchanged.  Evaluation of the embedding at the failing
input `record_result("m1", 2, 1)` on `leagueGhost`. -/
theorem c3_mutation_on_team_lookup_failure :
    (rmGhost.record_result "m1" 2 1).2 = (false, "Team not found in league") ∧
    ((rmGhost.record_result "m1" 2 1).1.league.getD leagueGhost).«matches» =
      [{ matchGhost with home_score := some 2, away_score := some 1, played := true }] ∧
    matchGhost.played = false := by
  decide

/-! ## C6 — `update_from_match` increments -/

/-- C6: on a played match, both teams' `played` counters increment, the
scores are added to `goals_for`/`goals_against` from each side's
perspective, the winner gets 3 points and a `won`, the loser a `lost`,
or both get 1 point and a `drawn` on equal scores; on a match that is
not `is_played` nothing changes. -/
theorem c6_update_from_match (m : Match) (home_team away_team : Team) (hs as' : Int) :
    (m.is_played = false → update_from_match m home_team away_team = (home_team, away_team)) ∧
    (m.is_played = true → m.home_score = some hs → m.away_score = some as' →
      ((hs > as' →
          update_from_match m home_team away_team =
            ({ home_team with
                played := home_team.played + 1,
                goals_for := home_team.goals_for + hs,
                goals_against := home_team.goals_against + as',
                won := home_team.won + 1,
                points := home_team.points + 3 },
             { away_team with
                played := away_team.played + 1,
                goals_for := away_team.goals_for + as',
                goals_against := away_team.goals_against + hs,
                lost := away_team.lost + 1 })) ∧
       (hs < as' →
          update_from_match m home_team away_team =
            ({ home_team with
                played := home_team.played + 1,
                goals_for := home_team.goals_for + hs,
                goals_against := home_team.goals_against + as',
                lost := home_team.lost + 1 },
             { away_team with
                played := away_team.played + 1,
                goals_for := away_team.goals_for + as',
                goals_against := away_team.goals_against + hs,
                won := away_team.won + 1,
                points := away_team.points + 3 })) ∧
       (hs = as' →
          update_from_match m home_team away_team =
            ({ home_team with
                played := home_team.played + 1,
                goals_for := home_team.goals_for + hs,
                goals_against := home_team.goals_against + as',
                drawn := home_team.drawn + 1,
                points := home_team.points + 1 },
             { away_team with
                played := away_team.played + 1,
                goals_for := away_team.goals_for + as',
                goals_against := away_team.goals_against + hs,
                drawn := away_team.drawn + 1,
                points := away_team.points + 1 })))) := by
  constructor
  · intro h
    simp [update_from_match, h]
  · intro hp hh ha
    have e : update_from_match m home_team away_team =
        if hs > as' then
          ({ home_team with
                played := home_team.played + 1,
                goals_for := home_team.goals_for + hs,
                goals_against := home_team.goals_against + as',
                won := home_team.won + 1,
                points := home_team.points + 3 },
             { away_team with
                played := away_team.played + 1,
                goals_for := away_team.goals_for + as',
                goals_against := away_team.goals_against + hs,
                lost := away_team.lost + 1 })
        else if hs < as' then
          ({ home_team with
                played := home_team.played + 1,
                goals_for := home_team.goals_for + hs,
                goals_against := home_team.goals_against + as',
                lost := home_team.lost + 1 },
             { away_team with
                played := away_team.played + 1,
                goals_for := away_team.goals_for + as',
                goals_against := away_team.goals_against + hs,
                won := away_team.won + 1,
                points := away_team.points + 3 })
        else
          ({ home_team with
                played := home_team.played + 1,
                goals_for := home_team.goals_for + hs,
                goals_against := home_team.goals_against + as',
                drawn := home_team.drawn + 1,
                points := home_team.points + 1 },
             { away_team with
                played := away_team.played + 1,
                goals_for := away_team.goals_for + as',
                goals_against := away_team.goals_against + hs,
                drawn := away_team.drawn + 1,
                points := away_team.points + 1 }) := by
      unfold update_from_match
      rw [hp, hh, ha]
      rfl
    refine ⟨fun hgt => ?_, fun hlt => ?_, fun heq => ?_⟩
    · rw [e, if_pos hgt]
    · rw [e, if_neg (by omega), if_pos hlt]
    · rw [e, if_neg (by omega), if_neg (by omega)]

/-- A concrete played 3–1 match. -/
def match31 : Match :=
  { match_id := "w", home_team_id := "a", away_team_id := "b", week := 1,
    home_score := some 3, away_score := some 1, played := true }

/-- C6 witness: a 3–1 home win applied to concrete teams. -/
theorem c6_update_from_match_witness :
    update_from_match match31 teamA teamB =
      ({ teamA with
          played := teamA.played + 1,
          goals_for := teamA.goals_for + 3,
          goals_against := teamA.goals_against + 1,
          won := teamA.won + 1,
          points := teamA.points + 3 },
       { teamB with
          played := teamB.played + 1,
          goals_for := teamB.goals_for + 1,
          goals_against := teamB.goals_against + 3,
          lost := teamB.lost + 1 }) :=
  ((c6_update_from_match match31 teamA teamB 3 1).2 rfl rfl rfl).1 (by decide)

/-! ## C9 — serialization round trip -/

/-- `Team.from_dict ∘ Team.to_dict` is the identity on every team whose
`team_id` is truthy (which `__post_init__` guarantees for every
constructed team except one with an empty derived name). -/
theorem team_from_to_dict (t : Team) (h : t.team_id ≠ "") :
    Team.from_dict t.to_dict = t := by
  simp [Team.from_dict, Team.to_dict, postInitId, h]

/-- `Match.from_dict ∘ Match.to_dict` is the identity. -/
theorem match_from_to_dict (m : Match) : Match.from_dict m.to_dict = m := rfl

/-- C9: reconstructing a league from its serialized record restores the
league exactly — same name, season and `fixtures_generated` flag, and
team and match lists with identical fields. -/
theorem c9_league_round_trip (L : League) (h : ∀ t ∈ L.teams, t.team_id ≠ "") :
    League.from_dict L.to_dict = L := by
  obtain ⟨nm, se, ts, ms, fg⟩ := L
  simp only [League.to_dict, League.from_dict, List.map_map, League.mk.injEq,
    true_and, and_true]
  constructor
  · have h' : ∀ t ∈ ts, (Team.from_dict ∘ Team.to_dict) t = id t :=
      fun t ht => team_from_to_dict t (h t ht)
    rw [List.map_congr_left h', List.map_id]
  · have h' : ∀ m ∈ ms, (Match.from_dict ∘ Match.to_dict) m = id m :=
      fun m _ => match_from_to_dict m
    rw [List.map_congr_left h', List.map_id]

/-- C9 witness: the round trip on a concrete league with a team and a
match. -/
theorem c9_league_round_trip_witness :
    League.from_dict leagueGhost.to_dict = leagueGhost :=
  c9_league_round_trip leagueGhost (by decide)

/-! ## Properties of the string comparison and `sortPair` -/

theorem strLeB_total (xs ys : List Char) :
    strLeB xs ys = true ∨ strLeB ys xs = true := by
  induction xs generalizing ys with
  | nil => left; rfl
  | cons a as' ih =>
    cases ys with
    | nil => right; rfl
    | cons b bs =>
      rcases lt_trichotomy a b with h | h | h
      · left; simp [strLeB, h]
      · subst h
        rcases ih bs with h' | h' <;> [left; right] <;> simp [strLeB, h']
      · right; simp [strLeB, h]

theorem strLeB_antisymm (xs ys : List Char)
    (h1 : strLeB xs ys = true) (h2 : strLeB ys xs = true) : xs = ys := by
  induction xs generalizing ys with
  | nil =>
    cases ys with
    | nil => rfl
    | cons b bs => simp [strLeB] at h2
  | cons a as' ih =>
    cases ys with
    | nil => simp [strLeB] at h1
    | cons b bs =>
      rcases lt_trichotomy a b with h | h | h
      · simp [strLeB, h, asymm h, h.ne'] at h2
      · subst h
        simp only [strLeB, lt_irrefl, if_false, if_pos rfl] at h1 h2
        rw [ih bs h1 h2]
      · simp [strLeB, h, asymm h, h.ne'] at h1

theorem sortPair_comm (x y : String) : sortPair x y = sortPair y x := by
  unfold sortPair pyStrLe
  rcases h1 : strLeB x.data y.data <;> rcases h2 : strLeB y.data x.data <;> simp
  · rcases strLeB_total x.data y.data with h | h
    · rw [h] at h1; cases h1
    · rw [h] at h2; cases h2
  · have := strLeB_antisymm _ _ h1 h2
    have : x = y := by cases x; cases y; exact congrArg String.mk this
    simp [this]

/-- The unordered id pair of a `(home, away)` pair of teams. -/
def pairIdOf (p : Team × Team) : String × String :=
  sortPair p.1.team_id p.2.team_id

/-- Default pair used for out-of-range list indexing in statements. -/
def dPair : Team × Team := (defaultTeam, defaultTeam)

/-! ## C5 — the balancer preserves the round structure -/

theorem balStep_snd (round_idx : Nat) (st : Streaks) (p : Team × Team) :
    (balStep round_idx st p).2 = p ∨ (balStep round_idx st p).2 = (p.2, p.1) := by
  simp only [balStep]
  split_ifs <;> simp

theorem balStep_snd_zero (st : Streaks) (p : Team × Team) :
    (balStep 0 st p).2 = p := by
  simp [balStep]

theorem balRound_length (round_idx : Nat) (ps : List (Team × Team)) :
    ∀ st, (balRound round_idx st ps).2.length = ps.length := by
  induction ps with
  | nil => intro st; rfl
  | cons p ps ih => intro st; simp [balRound, ih]

theorem balRound_getD (round_idx : Nat) (ps : List (Team × Team)) :
    ∀ st j, (balRound round_idx st ps).2.getD j dPair = ps.getD j dPair ∨
      (balRound round_idx st ps).2.getD j dPair =
        ((ps.getD j dPair).2, (ps.getD j dPair).1) := by
  induction ps with
  | nil => intro st j; left; rfl
  | cons p ps ih =>
    intro st j
    cases j with
    | zero => simpa [balRound] using balStep_snd round_idx st p
    | succ j => simpa [balRound] using ih (balStep round_idx st p).1 j

theorem balRound_zero (ps : List (Team × Team)) :
    ∀ st, (balRound 0 st ps).2 = ps := by
  induction ps with
  | nil => intro st; rfl
  | cons p ps ih => intro st; simp [balRound, balStep_snd_zero, ih]

theorem balGo_length (rds : List (List (Team × Team))) :
    ∀ st idx, (balGo st idx rds).length = rds.length := by
  induction rds with
  | nil => intro st idx; rfl
  | cons rd rds ih => intro st idx; simp [balGo, ih]

theorem balGo_getD_length (rds : List (List (Team × Team))) :
    ∀ st idx i, ((balGo st idx rds).getD i []).length = (rds.getD i []).length := by
  induction rds with
  | nil => intro st idx i; rfl
  | cons rd rds ih =>
    intro st idx i
    cases i with
    | zero => simpa [balGo] using balRound_length idx rd st
    | succ i => simpa [balGo] using ih (balRound idx st rd).1 (idx + 1) i

theorem balGo_getD_getD (rds : List (List (Team × Team))) :
    ∀ st idx i j,
      ((balGo st idx rds).getD i []).getD j dPair = ((rds.getD i []).getD j dPair) ∨
      ((balGo st idx rds).getD i []).getD j dPair =
        (((rds.getD i []).getD j dPair).2, ((rds.getD i []).getD j dPair).1) := by
  induction rds with
  | nil => intro st idx i j; left; rfl
  | cons rd rds ih =>
    intro st idx i j
    cases i with
    | zero => simpa [balGo] using balRound_getD idx rd st j
    | succ i => simpa [balGo] using ih (balRound idx st rd).1 (idx + 1) i j

theorem balGo_head (rds : List (List (Team × Team))) (st : Streaks) :
    (balGo st 0 rds).getD 0 [] = rds.getD 0 [] := by
  cases rds with
  | nil => rfl
  | cons rd rds => simpa [balGo] using balRound_zero rd st

theorem pairIdOf_swap (p : Team × Team) : pairIdOf (p.2, p.1) = pairIdOf p := by
  simp [pairIdOf, sortPair_comm]

/-- C5: `balance_home_away_rotation` returns the same number of rounds,
each round with the same number of matches; each output match is the
input match or the input match with home and away swapped (so round `i`
carries exactly the unordered pairs of input round `i`, in the same
order); and round index 0 is returned entirely unswapped. -/
theorem c5_balance_structure (rounds : List (List (Team × Team))) :
    (balance_home_away_rotation rounds).length = rounds.length ∧
    (∀ i, ((balance_home_away_rotation rounds).getD i []).length =
      (rounds.getD i []).length) ∧
    (∀ i j, ((balance_home_away_rotation rounds).getD i []).getD j dPair =
        ((rounds.getD i []).getD j dPair) ∨
      ((balance_home_away_rotation rounds).getD i []).getD j dPair =
        (((rounds.getD i []).getD j dPair).2, ((rounds.getD i []).getD j dPair).1)) ∧
    (∀ i, ((balance_home_away_rotation rounds).getD i []).map pairIdOf =
      ((rounds.getD i []).map pairIdOf)) ∧
    (balance_home_away_rotation rounds).getD 0 [] = rounds.getD 0 [] := by
  by_cases hr : rounds = []
  · subst hr
    exact ⟨rfl, fun i => rfl, fun i j => Or.inl rfl, fun i => rfl, rfl⟩
  · have hb : balance_home_away_rotation rounds =
        balGo { team_home_streak := fun _ => 0, team_away_streak := fun _ => 0 } 0 rounds := by
      simp [balance_home_away_rotation, hr]
    rw [hb]
    refine ⟨balGo_length rounds _ 0, fun i => balGo_getD_length rounds _ 0 i,
      fun i j => balGo_getD_getD rounds _ 0 i j, fun i => ?_, balGo_head rounds _⟩
    apply List.ext_getElem
    · simp only [List.length_map]
      exact balGo_getD_length rounds _ 0 i
    · intro k h1 h2
      simp only [List.getElem_map]
      have hk1 : k < ((balGo
          { team_home_streak := fun _ => 0, team_away_streak := fun _ => 0 }
          0 rounds).getD i []).length := by simpa using h1
      have hk2 : k < ((rounds.getD i []).length) := by simpa using h2
      rw [show ((balGo
            { team_home_streak := fun _ => 0, team_away_streak := fun _ => 0 }
            0 rounds).getD i [])[k] = ((balGo
            { team_home_streak := fun _ => 0, team_away_streak := fun _ => 0 }
            0 rounds).getD i []).getD k dPair from (List.getD_eq_getElem _ _ hk1).symm,
        show ((rounds.getD i [])[k] : Team × Team) =
            (rounds.getD i []).getD k dPair from (List.getD_eq_getElem _ _ hk2).symm]
      rcases balGo_getD_getD rounds
          { team_home_streak := fun _ => 0, team_away_streak := fun _ => 0 } 0 i k with
        h | h
      · rw [h]
      · rw [h, pairIdOf_swap]

/-! ## C4 — ranking order, stability, positions -/

/-- The ranking order as the claim words it: descending points, then
descending goal difference, then descending goals scored, then ascending
case-insensitive name. -/
def claimOrder (a b : Team) : Prop :=
  b.points < a.points ∨
    (a.points = b.points ∧
      (b.goal_difference < a.goal_difference ∨
        (a.goal_difference = b.goal_difference ∧
          (b.goals_for < a.goals_for ∨
            (a.goals_for = b.goals_for ∧ pyLower a.name ≤ pyLower b.name)))))

/-- The four sort keys, in claim order. -/
def quadKey (t : Team) : Int × Int × Int × String :=
  (t.points, t.goal_difference, t.goals_for, pyLower t.name)

theorem quadKey_eq_iff_rankKey_eq (u v : Team) :
    quadKey u = quadKey v ↔ rankKey u = rankKey v := by
  simp only [quadKey, rankKey, Team.goal_difference, Prod.mk.injEq, toLex_inj, neg_inj,
    neg_sub]
  constructor
  · rintro ⟨h1, h2, h3, h4⟩
    refine ⟨h1, ?_, h3, h4⟩
    omega
  · rintro ⟨h1, h2, h3, h4⟩
    refine ⟨h1, ?_, h3, h4⟩
    omega

theorem claimOrder_iff (a b : Team) : claimOrder a b ↔ rankKey a ≤ rankKey b := by
  simp only [claimOrder, rankKey, Prod.Lex.le_iff, Prod.Lex.lt_iff, toLex_inj,
    neg_lt_neg_iff, neg_inj, Prod.mk.injEq, Team.goal_difference]

theorem insertRanked_perm (x : Team) (l : List Team) :
    (insertRanked x l).Perm (x :: l) := by
  induction l with
  | nil => exact List.Perm.refl _
  | cons y l ih =>
    by_cases h : rankLt y x
    · rw [insertRanked, if_pos h]
      exact (ih.cons y).trans (List.Perm.swap x y l)
    · rw [insertRanked, if_neg h]

theorem mem_insertRanked {z x : Team} {l : List Team} :
    z ∈ insertRanked x l ↔ z = x ∨ z ∈ l := by
  rw [(insertRanked_perm x l).mem_iff, List.mem_cons]

theorem get_rankings_perm (l : List Team) : (get_rankings l).Perm l := by
  induction l with
  | nil => exact List.Perm.refl _
  | cons x l ih =>
    exact (insertRanked_perm x (get_rankings l)).trans (ih.cons x)

theorem pairwise_insertRanked (x : Team) (l : List Team)
    (hl : l.Pairwise (fun a b => rankKey a ≤ rankKey b)) :
    (insertRanked x l).Pairwise (fun a b => rankKey a ≤ rankKey b) := by
  induction l with
  | nil => simp [insertRanked]
  | cons y l ih =>
    rcases hl with _ | ⟨hy, hl⟩
    by_cases h : rankLt y x
    · simp only [insertRanked, if_pos h]
      refine List.Pairwise.cons ?_ (ih hl)
      intro z hz
      rcases mem_insertRanked.mp hz with rfl | hz
      · exact le_of_lt h
      · exact hy z hz
    · simp only [insertRanked, if_neg h]
      have hxy : rankKey x ≤ rankKey y := not_lt.mp h
      refine List.Pairwise.cons ?_ (List.Pairwise.cons hy hl)
      intro z hz
      rcases List.mem_cons.mp hz with rfl | hz
      · exact hxy
      · exact le_trans hxy (hy z hz)

theorem get_rankings_sorted (l : List Team) :
    (get_rankings l).Pairwise (fun a b => rankKey a ≤ rankKey b) := by
  induction l with
  | nil => exact List.Pairwise.nil
  | cons x l ih => exact pairwise_insertRanked x _ ih

theorem filter_insertRanked (x : Team) (l : List Team) (p : Team → Bool)
    (hp : ∀ u v, p u = true → p v = true → rankKey u = rankKey v) :
    (insertRanked x l).filter p =
      if p x then x :: l.filter p else l.filter p := by
  induction l with
  | nil => by_cases hx : p x <;> simp [insertRanked, hx]
  | cons y l ih =>
    by_cases h : rankLt y x
    · rw [insertRanked, if_pos h]
      by_cases hy : p y
      · have hx : p x = false := by
          cases hxv : p x
          · rfl
          · exact absurd h (by rw [rankLt, hp y x hy hxv]; exact lt_irrefl _)
        rw [List.filter_cons_of_pos hy, ih, if_neg (by simp [hx]),
          List.filter_cons_of_pos hy, if_neg (by simp [hx])]
      · have hy' : p y = false := by simpa using hy
        rw [List.filter_cons_of_neg (by simp [hy']), ih,
          List.filter_cons_of_neg (by simp [hy'])]
    · rw [insertRanked, if_neg h]
      by_cases hx : p x
      · rw [List.filter_cons_of_pos hx, if_pos hx]
      · have hx' : p x = false := by simpa using hx
        rw [List.filter_cons_of_neg (by simp [hx']), if_neg (by simp [hx'])]

theorem get_rankings_filter (l : List Team) (p : Team → Bool)
    (hp : ∀ u v, p u = true → p v = true → rankKey u = rankKey v) :
    (get_rankings l).filter p = l.filter p := by
  induction l with
  | nil => rfl
  | cons x l ih =>
    show (insertRanked x (get_rankings l)).filter p = _
    rw [filter_insertRanked x _ p hp, ih, List.filter_cons]

/-- C4: `get_rankings` returns a permutation of the team list sorted by
descending points, then descending goal difference, then descending
goals scored, then ascending case-insensitive name; the sort is stable
(teams tied on all four keys keep the league's insertion order); and
`get_table_data` assigns the 1-based consecutive positions
`1, …, n` over that full sort. -/
theorem c4_rankings_table (l : List Team) :
    (get_rankings l).Perm l ∧
    (get_rankings l).Pairwise claimOrder ∧
    (∀ t0, (get_rankings l).filter (fun t => quadKey t = quadKey t0) =
      l.filter (fun t => quadKey t = quadKey t0)) ∧
    (get_table_data l).map TableRow.position = List.range' 1 l.length ∧
    (get_table_data l).map TableRow.team = (get_rankings l).map Team.name := by
  refine ⟨get_rankings_perm l, ?_, ?_, ?_, ?_⟩
  · exact (get_rankings_sorted l).imp (fun h => (claimOrder_iff _ _).mpr h)
  · intro t0
    refine get_rankings_filter l _ (fun u v hu hv => ?_)
    have hu' : quadKey u = quadKey t0 := by simpa using hu
    have hv' : quadKey v = quadKey t0 := by simpa using hv
    exact (quadKey_eq_iff_rankKey_eq u v).mp (hu'.trans hv'.symm)
  · have hlen : (get_rankings l).length = l.length := (get_rankings_perm l).length_eq
    simp only [get_table_data, List.map_map]
    have : (TableRow.position ∘ fun p : Nat × Team =>
        ({ position := p.1 + 1, team := p.2.name, played := p.2.played,
           won := p.2.won, drawn := p.2.drawn, lost := p.2.lost,
           goals_for := p.2.goals_for, goals_against := p.2.goals_against,
           goal_difference := p.2.goal_difference, points := p.2.points } : TableRow)) =
        (fun i => i + 1) ∘ Prod.fst := rfl
    rw [this, ← List.map_map, List.enum_map_fst, ← hlen]
    rw [List.range'_eq_map_range]
    exact List.map_congr_left (fun i _ => Nat.add_comm i 1)
  · simp only [get_table_data, List.map_map]
    have : (TableRow.team ∘ fun p : Nat × Team =>
        ({ position := p.1 + 1, team := p.2.name, played := p.2.played,
           won := p.2.won, drawn := p.2.drawn, lost := p.2.lost,
           goals_for := p.2.goals_for, goals_against := p.2.goals_against,
           goal_difference := p.2.goal_difference, points := p.2.points } : TableRow)) =
        Team.name ∘ Prod.snd := rfl
    rw [this, ← List.map_map, List.enum_map_snd]

/-! ## C8 — duplicate-fixture detection -/

theorem str_data_eq {x y : String} (h : x.data = y.data) : x = y := by
  cases x; cases y; exact congrArg String.mk h

theorem sortPair_eq_iff {a b c d : String} :
    sortPair a b = sortPair c d ↔ (a = c ∧ b = d) ∨ (a = d ∧ b = c) := by
  constructor
  · intro h
    unfold sortPair at h
    split_ifs at h <;> (rw [Prod.mk.injEq] at h; tauto)
  · rintro (⟨rfl, rfl⟩ | ⟨rfl, rfl⟩)
    · rfl
    · exact sortPair_comm a b

/-- Default match used for out-of-range list indexing in statements. -/
def dMatch : Match :=
  { match_id := "", home_team_id := "", away_team_id := "", week := 0 }

/-- Specification of the duplicate scan: position `i` contributes one
duplicate error exactly when its canonical pair already occurred at an
earlier position — so a pair occurring `k` times yields `k - 1` errors,
none for the first occurrence and one for each subsequent one. -/
def dupSpec (ms : List Match) : List String :=
  (List.range ms.length).filterMap (fun i =>
    if (ms.getD i dMatch).pairKey ∈ (ms.take i).map Match.pairKey then
      some (dupMsg (ms.getD i dMatch))
    else none)

theorem dupScan_eq_spec (ms : List Match) : ∀ seen,
    dupScan ms seen = (List.range ms.length).filterMap (fun i =>
      if (ms.getD i dMatch).pairKey ∈ seen ++ (ms.take i).map Match.pairKey then
        some (dupMsg (ms.getD i dMatch))
      else none) := by
  induction ms with
  | nil => intro seen; rfl
  | cons m ms ih =>
    intro seen
    rw [List.length_cons, List.range_succ_eq_map]
    by_cases h : m.pairKey ∈ seen
    · rw [dupScan, if_pos h, ih seen]
      simp only [List.filterMap_cons, List.filterMap_map, List.take_zero,
        List.map_nil, List.append_nil, List.getD_cons_zero, if_pos h]
      congr 1
      apply List.filterMap_congr
      intro i _
      simp only [Function.comp_apply, List.getD_cons_succ, List.take_succ_cons,
        List.map_cons]
      refine if_congr ?_ rfl rfl
      constructor
      · intro hs
        rcases List.mem_append.mp hs with hs | hs
        · exact List.mem_append.mpr (Or.inl hs)
        · exact List.mem_append.mpr (Or.inr (List.mem_cons_of_mem _ hs))
      · intro hs
        rcases List.mem_append.mp hs with hs | hs
        · exact List.mem_append.mpr (Or.inl hs)
        · rcases List.mem_cons.mp hs with hs | hs
          · rw [hs]; exact List.mem_append.mpr (Or.inl h)
          · exact List.mem_append.mpr (Or.inr hs)
    · rw [dupScan, if_neg h, ih (m.pairKey :: seen)]
      simp only [List.filterMap_cons, List.filterMap_map, List.take_zero,
        List.map_nil, List.append_nil, List.getD_cons_zero, if_neg h]
      apply List.filterMap_congr
      intro i _
      simp only [Function.comp_apply, List.getD_cons_succ, List.take_succ_cons,
        List.map_cons]
      refine if_congr ?_ rfl rfl
      simp only [List.cons_append, List.mem_cons, List.mem_append]
      tauto

theorem validate_two_dup_aux (L : League) (m1 m2 : Match)
    (hm : L.«matches» = [m1, m2])
    (hself : m1.home_team_id ≠ m1.away_team_id)
    (hself2 : m2.home_team_id ≠ m2.away_team_id)
    (hpair : m2.pairKey = m1.pairKey)
    (hw1 : m1.week = 1) (hw2 : m2.week = 3)
    (hh : m1.home_team_id ∈ L.teams.map Team.team_id)
    (ha : m1.away_team_id ∈ L.teams.map Team.team_id)
    (hh2 : m2.home_team_id ∈ L.teams.map Team.team_id)
    (ha2 : m2.away_team_id ∈ L.teams.map Team.team_id) :
    validate_fixtures L = (false, [dupMsg m2]) := by
  have hd : dupScan [m1, m2] [] = [dupMsg m2] := by simp [dupScan, hpair]
  have hs : selfErrors [m1, m2] = [] := by simp [selfErrors, hself, hself2]
  have hr : refErrors L.teams [m1, m2] = [] := by
    simp only [refErrors, List.flatMap_cons, List.flatMap_nil, List.append_nil,
      if_pos hh, if_pos ha, if_pos hh2, if_pos ha2, List.nil_append]
  have hw : weekScan [m1, m2] (fun _ => []) = [] := by simp [weekScan, hw1, hw2]
  simp [validate_fixtures, hm, hd, hs, hr, hw]

/-- C8: (a) a league whose match list is exactly two matches between the
same unordered pair placed in weeks 1 and 3, with no self-match and all
ids in the roster, fails validation with exactly one error, the
duplicate-fixture error for the second match; (b) in general the
duplicate scan emits one error per match whose canonical pair already
occurred earlier in the schedule — `k` occurrences of a pair give
`k - 1` duplicate errors, none for the first occurrence. -/
theorem c8_duplicate_fixture_errors :
    (∀ (L : League) (m1 m2 : Match),
        L.«matches» = [m1, m2] →
        m1.home_team_id ≠ m1.away_team_id →
        m2.pairKey = m1.pairKey →
        m1.week = 1 → m2.week = 3 →
        m1.home_team_id ∈ L.teams.map Team.team_id →
        m1.away_team_id ∈ L.teams.map Team.team_id →
        validate_fixtures L = (false, [dupMsg m2])) ∧
    (∀ ms : List Match, dupScan ms [] = dupSpec ms) := by
  constructor
  · intro L m1 m2 hm hself hpair hw1 hw2 hh ha
    have hpair' : sortPair m2.home_team_id m2.away_team_id =
        sortPair m1.home_team_id m1.away_team_id := hpair
    rcases sortPair_eq_iff.mp hpair' with ⟨e1, e2⟩ | ⟨e1, e2⟩
    · have hself2 : m2.home_team_id ≠ m2.away_team_id := by
        rw [e1, e2]; exact hself
      have hh2 : m2.home_team_id ∈ L.teams.map Team.team_id := by rw [e1]; exact hh
      have ha2 : m2.away_team_id ∈ L.teams.map Team.team_id := by rw [e2]; exact ha
      exact validate_two_dup_aux L m1 m2 hm hself hself2 hpair hw1 hw2 hh ha hh2 ha2
    · have hself2 : m2.home_team_id ≠ m2.away_team_id := by
        rw [e1, e2]; exact Ne.symm hself
      have hh2 : m2.home_team_id ∈ L.teams.map Team.team_id := by rw [e1]; exact ha
      have ha2 : m2.away_team_id ∈ L.teams.map Team.team_id := by rw [e2]; exact hh
      exact validate_two_dup_aux L m1 m2 hm hself hself2 hpair hw1 hw2 hh ha hh2 ha2
  · intro ms
    rw [dupScan_eq_spec ms [], dupSpec]
    apply List.filterMap_congr
    intro i _
    rw [List.nil_append]

/-- The week-1 match of the duplicated pair. -/
def matchAB1 : Match :=
  { match_id := "x1", home_team_id := "a", away_team_id := "b", week := 1,
    home_team_name := "Alpha", away_team_name := "Beta" }

/-- The week-3 repeat of the same unordered pair, opposite orientation. -/
def matchBA3 : Match :=
  { match_id := "x2", home_team_id := "b", away_team_id := "a", week := 3,
    home_team_name := "Beta", away_team_name := "Alpha" }

/-- A league containing exactly the duplicated pair in weeks 1 and 3. -/
def leagueDup : League :=
  { name := "L", season := "2024", teams := [teamA, teamB],
    «matches» := [matchAB1, matchBA3] }

/-- C8 witness: the two-match duplicate scenario evaluated on a concrete
league. -/
theorem c8_duplicate_fixture_errors_witness :
    validate_fixtures leagueDup = (false, [dupMsg matchBA3]) :=
  c8_duplicate_fixture_errors.1 leagueDup matchAB1 matchBA3 rfl (by decide)
    (by decide) rfl rfl (by decide) (by decide)

/-! ## C7 — regeneration preserves recorded results -/

/-- The snapshot entry of a played match. -/
def backupEntry (m : Match) : (String × String) × (Int × Int × String) :=
  (m.pairKey, (m.home_score.getD 0, m.away_score.getD 0, m.home_team_id))

theorem buildBackup_aux (ms : List Match) : ∀ acc,
    ms.foldl (fun acc m => if m.is_played then backupEntry m :: acc else acc) acc =
      ((ms.filter Match.is_played).map backupEntry).reverse ++ acc := by
  induction ms with
  | nil => intro acc; rfl
  | cons m ms ih =>
    intro acc
    by_cases h : m.is_played
    · rw [List.foldl_cons, if_pos h, ih, List.filter_cons_of_pos h, List.map_cons,
        List.reverse_cons, List.append_assoc, List.singleton_append]
    · rw [List.foldl_cons, if_neg h, ih, List.filter_cons_of_neg h]

theorem buildBackup_eq (ms : List Match) :
    buildBackup ms = ((ms.filter Match.is_played).map backupEntry).reverse := by
  rw [buildBackup]
  have := buildBackup_aux ms []
  simp only [List.append_nil] at this
  convert this using 2

theorem lookup_eq_of_unique {β : Type} (l : List ((String × String) × β))
    (k : String × String) (v : β) (hmem : (k, v) ∈ l)
    (huniq : ∀ v', (k, v') ∈ l → v' = v) :
    l.lookup k = some v := by
  induction l with
  | nil => cases hmem
  | cons e l ih =>
    obtain ⟨k1, v1⟩ := e
    simp only [List.lookup]
    cases hbe : k == k1 with
    | true =>
      have hk : k = k1 := beq_iff_eq.mp hbe
      have hv : v1 = v := huniq v1 (by rw [hk]; exact List.mem_cons_self _ _)
      rw [hv]
    | false =>
      have hk : k ≠ k1 := by
        intro hkk
        rw [hkk] at hbe
        simp at hbe
      have hmem' : (k, v) ∈ l := by
        rcases List.mem_cons.mp hmem with h | h
        · exact absurd (congrArg Prod.fst h) hk
        · exact h
      exact ih hmem' (fun v' hv' => huniq v' (List.mem_cons_of_mem _ hv'))

theorem restoreAll_mem (backup : List ((String × String) × (Int × Int × String))) :
    ∀ (ms : List Match) (rs : List (Match × Nat)),
      restoreAll backup ms = some rs →
      ∀ r ∈ rs, ∃ m ∈ ms, restoreOne backup m = some r := by
  intro ms
  induction ms with
  | nil =>
    intro rs h r hr
    simp only [restoreAll] at h
    obtain rfl : rs = [] := by simpa using h.symm
    cases hr
  | cons m ms ih =>
    intro rs h r hr
    simp only [restoreAll] at h
    rcases h1 : restoreOne backup m with _ | r1 <;> rw [h1] at h
    · cases h
    · rcases h2 : restoreAll backup ms with _ | rs1 <;> rw [h2] at h
      · cases h
      · obtain rfl : rs = r1 :: rs1 := by simpa using h.symm
        rcases List.mem_cons.mp hr with rfl | hr
        · exact ⟨m, List.mem_cons_self m ms, h1⟩
        · obtain ⟨m', hm', hro⟩ := ih rs1 h2 r hr
          exact ⟨m', List.mem_cons_of_mem _ hm', hro⟩

theorem restoreOne_ids (backup : List ((String × String) × (Int × Int × String)))
    (m : Match) (r : Match × Nat) (h : restoreOne backup m = some r) :
    r.1.home_team_id = m.home_team_id ∧ r.1.away_team_id = m.away_team_id := by
  unfold restoreOne at h
  rcases hl : backup.lookup m.pairKey with _ | ⟨hs, as', oh⟩ <;> rw [hl] at h <;>
    dsimp only at h
  · obtain rfl := Option.some_inj.mp h
    exact ⟨rfl, rfl⟩
  · unfold Match.recordResult at h
    split_ifs at h with h1 h2 h3 <;> simp only [Option.map] at h
    · cases h
    · rw [Option.some_inj] at h
      subst h
      exact ⟨rfl, rfl⟩
    · cases h
    · rw [Option.some_inj] at h
      subst h
      exact ⟨rfl, rfl⟩

/-- C7: after a successful `auto_regenerate_fixtures` on a league whose
match list contained a (unique) played match `mo` between the unordered
pair `{A, B}`, every regenerated match with that pair is played and
carries the preserved score: unswapped when its home side equals the old
home side, swapped otherwise. -/
theorem c7_regenerate_restores_scores
    (L L' : League) (dateOf : Nat → String) (msg : String)
    (mo : Match) (A B : String)
    (hreg : auto_regenerate_fixtures L dateOf = some (L', true, msg))
    (hmo : mo ∈ L.«matches») (hp : mo.is_played = true)
    (hpair : mo.pairKey = sortPair A B)
    (huniq : ∀ m ∈ L.«matches», m.is_played = true → m.pairKey = mo.pairKey → m = mo) :
    ∀ m' ∈ L'.«matches», m'.pairKey = sortPair A B →
      m'.played = true ∧
      (m'.home_team_id = mo.home_team_id →
        m'.home_score = mo.home_score ∧ m'.away_score = mo.away_score) ∧
      (m'.home_team_id ≠ mo.home_team_id →
        m'.home_score = mo.away_score ∧ m'.away_score = mo.home_score) := by
  -- the played match has both scores present
  have hhs : mo.home_score = some (mo.home_score.getD 0) := by
    rcases hhs : mo.home_score with _ | v
    · rw [Match.is_played, hhs] at hp; simp at hp
    · rfl
  have has : mo.away_score = some (mo.away_score.getD 0) := by
    rcases has : mo.away_score with _ | v
    · rw [Match.is_played, has] at hp; simp at hp
    · rfl
  -- the snapshot contains exactly mo's entry under mo's pair
  have hmem : backupEntry mo ∈ buildBackup L.«matches» := by
    rw [buildBackup_eq, List.mem_reverse]
    exact List.mem_map_of_mem _ (List.mem_filter.mpr ⟨hmo, hp⟩)
  have hlk : (buildBackup L.«matches»).lookup mo.pairKey =
      some (mo.home_score.getD 0, mo.away_score.getD 0, mo.home_team_id) := by
    apply lookup_eq_of_unique _ _ _ hmem
    intro v' hv'
    rw [buildBackup_eq, List.mem_reverse, List.mem_map] at hv'
    obtain ⟨m1, hm1, he⟩ := hv'
    obtain ⟨hm1m, hm1p⟩ := List.mem_filter.mp hm1
    have hkey : m1.pairKey = mo.pairKey := congrArg Prod.fst he
    have : m1 = mo := huniq m1 hm1m hm1p hkey
    subst this
    exact (congrArg Prod.snd he).symm
  have hne : buildBackup L.«matches» ≠ [] := List.ne_nil_of_mem hmem
  -- peel the definition of auto_regenerate_fixtures along hreg
  unfold auto_regenerate_fixtures at hreg
  rcases hv : L.validate_for_scheduling with ⟨vb, vs⟩
  rw [hv] at hreg
  cases vb with
  | false => simp at hreg
  | true =>
    simp only at hreg
    rcases hg : generate_fixtures L dateOf with ⟨Lg, ok, gmsg⟩
    rw [hg] at hreg
    cases ok with
    | false => rw [if_neg (by simp)] at hreg; simp at hreg
    | true =>
      rw [if_pos ⟨rfl, hne⟩] at hreg
      rcases hra : restoreAll (buildBackup L.«matches») Lg.«matches» with _ | rs <;>
        rw [hra] at hreg
      · cases hreg
      · have hL' : L'.«matches» = rs.map Prod.fst := by
          have := congrArg (fun o => (o.getD (L', true, msg)).1.«matches») hreg
          simpa using this.symm
        intro m' hm' hm'pair
        rw [hL'] at hm'
        obtain ⟨r, hr, rfl⟩ := List.mem_map.mp hm'
        obtain ⟨mg, hmg, hro⟩ := restoreAll_mem _ _ _ hra r hr
        obtain ⟨hid1, hid2⟩ := restoreOne_ids _ _ _ hro
        have hkg : mg.pairKey = mo.pairKey := by
          have : r.1.pairKey = mg.pairKey := by
            rw [Match.pairKey, Match.pairKey, hid1, hid2]
          rw [← this, hm'pair, hpair]
        -- the lookup in restoreOne hits mo's entry
        unfold restoreOne at hro
        rw [hkg, hlk] at hro
        dsimp only at hro
        unfold Match.recordResult at hro
        split_ifs at hro with hor hneg hneg2 <;> simp only [Option.map] at hro
        · cases hro
        · rw [Option.some_inj] at hro
          subst hro
          exact ⟨rfl, fun _ => ⟨hhs.symm, has.symm⟩, fun hcon => absurd hor hcon⟩
        · cases hro
        · rw [Option.some_inj] at hro
          subst hro
          exact ⟨rfl, fun hcon => absurd hcon hor, fun _ => ⟨has.symm, hhs.symm⟩⟩

/-- A played 2–1 match between `a` and `b` before regeneration. -/
def matchOld : Match :=
  { match_id := "old", home_team_id := "a", away_team_id := "b", week := 1,
    home_score := some 2, away_score := some 1, played := true }

/-- A four-team league with one played match, to be regenerated. -/
def leaguePrev : League :=
  { name := "L", season := "2024", teams := [teamA, teamB, teamC, teamD],
    «matches» := [matchOld] }

/-- The date oracle used by the C7 witness. -/
def df7 : Nat → String := fun _ => "d"

/-- The regeneration result on `leaguePrev`. -/
def reg7 : League × Bool × String :=
  (auto_regenerate_fixtures leaguePrev df7).getD (leaguePrev, false, "")

/-- The regenerated league. -/
def L7 : League := reg7.1

/-- The regenerated `a` vs `b` match. -/
def m7 : Match := L7.«matches».getD 4 dMatch

/-- C7 witness: the regenerated `a` vs `b` match of a concrete league
carries the preserved 2–1 score with the right orientation. -/
theorem c7_regenerate_restores_scores_witness :
    m7.played = true ∧
    (m7.home_team_id = matchOld.home_team_id →
      m7.home_score = matchOld.home_score ∧ m7.away_score = matchOld.away_score) ∧
    (m7.home_team_id ≠ matchOld.home_team_id →
      m7.home_score = matchOld.away_score ∧ m7.away_score = matchOld.home_score) :=
  c7_regenerate_restores_scores leaguePrev L7 df7 reg7.2.2 matchOld "a" "b"
    (by decide) (by decide) (by decide) (by decide) (by decide)
    m7 (by decide) (by decide)

/-! ## C1 — correctness of the circle-method round-robin generator

Throughout, the team list is `a :: c` with `m := c.length` (so `n =
m + 1` and, for an even number of teams, `m` is odd).  The circle method
fixes `a` and rotates `c`; position `p ≥ 1` of the rotated list after
`r` rounds holds `c`'s entry at cycle index `p - 1 - r (mod m)`. -/

theorem rrGo_length (n : Nat) : ∀ (k round_num : Nat) (tl : List Team),
    (rrGo n k round_num tl).length = k := by
  intro k
  induction k with
  | zero => intro r tl; rfl
  | succ k ih => intro r tl; simp [rrGo, ih]

theorem rrGo_eq_map (n : Nat) : ∀ (k round_num : Nat) (tl : List Team),
    rrGo n k round_num tl = (List.range k).map
      (fun j => mkRound n (round_num + j) (pyRotate^[j] tl)) := by
  intro k
  induction k with
  | zero => intro r tl; rfl
  | succ k ih =>
    intro r tl
    rw [rrGo, ih (r + 1) (pyRotate tl), List.range_succ_eq_map, List.map_cons,
      List.map_map]
    congr 1
    apply List.map_congr_left
    intro j _
    simp only [Function.comp_apply, Function.iterate_succ_apply, Nat.succ_eq_add_one]
    congr 1
    omega

theorem pyRotate_cons (a : Team) (d : List Team) (hd : d ≠ []) :
    pyRotate (a :: d) = a :: d.rotate (d.length - 1) := by
  obtain ⟨dl, lst, rfl⟩ : ∃ dl lst, d = dl ++ [lst] :=
    ⟨d.dropLast, d.getLast hd, (List.dropLast_append_getLast hd).symm⟩
  have hlen : (dl ++ [lst]).length - 1 = dl.length := by simp
  have hrot : (dl ++ [lst]).rotate dl.length = lst :: dl := by
    rw [List.rotate_eq_drop_append_take (by simp), List.drop_left, List.take_left]
    rfl
  rw [hlen, hrot]
  show a :: (a :: (dl ++ [lst])).getLastD defaultTeam ::
      (dl ++ [lst]).dropLast = a :: lst :: dl
  rw [List.dropLast_concat, ← List.cons_append, List.getLastD_concat]

theorem pyRotate_iter (a : Team) (c : List Team) (hc : c ≠ []) : ∀ r : Nat,
    pyRotate^[r] (a :: c) = a :: c.rotate (r * (c.length - 1)) := by
  intro r
  induction r with
  | zero => simp
  | succ r ih =>
    rw [Function.iterate_succ_apply', ih,
      pyRotate_cons a _ (by simp [List.rotate_eq_nil_iff, hc]),
      List.length_rotate, List.rotate_rotate]
    congr 2
    ring

/-- `c`'s entry at a cycle index modulo `c.length`. -/
def cAt (c : List Team) (z : ZMod c.length) : Team :=
  c.getD z.val defaultTeam

theorem cAt_mem (c : List Team) (hc : c ≠ []) (z : ZMod c.length) : cAt c z ∈ c := by
  haveI : NeZero c.length := ⟨fun h => hc (List.length_eq_zero.mp h)⟩
  rw [cAt, List.getD_eq_getElem c defaultTeam (ZMod.val_lt z)]
  exact List.getElem_mem _

theorem rotIter_getD_zero (a : Team) (c : List Team) (hc : c ≠ []) (r : Nat) :
    (pyRotate^[r] (a :: c)).getD 0 defaultTeam = a := by
  rw [pyRotate_iter a c hc r]
  rfl

theorem rotIter_getD_succ (a : Team) (c : List Team) (hc : c ≠ []) (r q : Nat)
    (hq : q < c.length) :
    (pyRotate^[r] (a :: c)).getD (q + 1) defaultTeam =
      cAt c ((q : ZMod c.length) - r) := by
  haveI : NeZero c.length := ⟨fun h => hc (List.length_eq_zero.mp h)⟩
  have hm : 0 < c.length := List.length_pos.mpr hc
  rw [pyRotate_iter a c hc r]
  have h1 : (a :: c.rotate (r * (c.length - 1))).getD (q + 1) defaultTeam =
      (c.rotate (r * (c.length - 1))).getD q defaultTeam := rfl
  rw [h1, List.getD_eq_getElem _ defaultTeam (by simpa using hq),
    List.getElem_rotate]
  have hcast : ((q + r * (c.length - 1) : ℕ) : ZMod c.length) =
      (q : ZMod c.length) - r := by
    push_cast
    rw [Nat.cast_sub hm, ZMod.natCast_self]
    ring
  have hval : (q + r * (c.length - 1)) % c.length =
      ((q : ZMod c.length) - r).val := by
    rw [← hcast, ZMod.val_natCast]
  rw [cAt, List.getD_eq_getElem c defaultTeam (by rw [← hval]; exact Nat.mod_lt _ hm)]
  congr 1
  try rw [← hval]

/-- The `(position i, position n-1-i)` pair of round `r` before the
orientation step, written through the cycle indices of `c`. -/
def slotPre (a : Team) (c : List Team) (r i : Nat) : Team × Team :=
  if i = 0 then (a, cAt c (-1 - (r : ZMod c.length)))
  else (cAt c ((i : ZMod c.length) - 1 - r), cAt c (-(i : ZMod c.length) - 1 - r))

theorem filterMap_eq_map_of {α β : Type} (l : List α) (f : α → Option β) (g : α → β)
    (h : ∀ x ∈ l, f x = some (g x)) : l.filterMap f = l.map g := by
  induction l with
  | nil => rfl
  | cons x l ih =>
    rw [List.filterMap_cons, h x (List.mem_cons_self x l), List.map_cons,
      ih (fun y hy => h y (List.mem_cons_of_mem x hy))]

theorem slotPre_fst_mem (a : Team) (c : List Team) (hc : c ≠ []) (r i : Nat) :
    (slotPre a c r i).1 ∈ a :: c := by
  unfold slotPre
  split_ifs
  · exact List.mem_cons_self a c
  · exact List.mem_cons_of_mem a (cAt_mem c hc _)

theorem slotPre_snd_mem (a : Team) (c : List Team) (hc : c ≠ []) (r i : Nat) :
    (slotPre a c r i).2 ∈ a :: c := by
  unfold slotPre
  split_ifs <;> exact List.mem_cons_of_mem a (cAt_mem c hc _)

theorem mkRound_eq_map (a : Team) (c : List Team) (hc : c ≠ [])
    (hodd : Odd c.length) (hbye : ∀ t ∈ a :: c, t.team_id ≠ "bye") (r : Nat) :
    mkRound (c.length + 1) r (pyRotate^[r] (a :: c)) =
      (List.range ((c.length + 1) / 2)).map (fun i =>
        if (r + i) % 2 = 0 then slotPre a c r i
        else ((slotPre a c r i).2, (slotPre a c r i).1)) := by
  have hm : 0 < c.length := List.length_pos.mpr hc
  unfold mkRound
  apply filterMap_eq_map_of
  intro i hi
  rw [List.mem_range] at hi
  have hhalf : (c.length + 1) / 2 ≤ c.length := by omega
  have hpair : (pyRotate^[r] (a :: c)).getD i defaultTeam = (slotPre a c r i).1 ∧
      (pyRotate^[r] (a :: c)).getD (c.length + 1 - 1 - i) defaultTeam =
        (slotPre a c r i).2 := by
    cases i with
    | zero =>
      constructor
      · rw [rotIter_getD_zero a c hc r]
        rfl
      · have hidx : c.length + 1 - 1 - 0 = (c.length - 1) + 1 := by omega
        rw [hidx, rotIter_getD_succ a c hc r (c.length - 1) (by omega)]
        show _ = cAt c (-1 - (r : ZMod c.length))
        congr 1
        rw [Nat.cast_sub hm, ZMod.natCast_self]
        ring
    | succ q =>
      have hq : q < c.length := by omega
      have hq2 : q + 2 ≤ c.length := by
        obtain ⟨u, hu⟩ := hodd
        omega
      have hsp : slotPre a c r (q + 1) =
          (cAt c (((q + 1 : ℕ) : ZMod c.length) - 1 - r),
           cAt c (-((q + 1 : ℕ) : ZMod c.length) - 1 - r)) := by
        unfold slotPre
        rw [if_neg (Nat.succ_ne_zero q)]
      constructor
      · rw [rotIter_getD_succ a c hc r q hq, hsp]
        show cAt c _ = cAt c _
        congr 1
        push_cast
        ring
      · have hidx : c.length + 1 - 1 - (q + 1) = (c.length - q - 2) + 1 := by omega
        rw [hidx, rotIter_getD_succ a c hc r (c.length - q - 2) (by omega), hsp]
        show cAt c _ = cAt c _
        congr 1
        rw [show (c.length - q - 2 : ℕ) = c.length - (q + 2) by omega,
          Nat.cast_sub hq2, ZMod.natCast_self]
        push_cast
        ring
  rw [hpair.1, hpair.2]
  rw [if_neg]
  · split_ifs <;> rfl
  · push_neg
    constructor
    · exact hbye _ (slotPre_fst_mem a c hc r i)
    · exact hbye _ (slotPre_snd_mem a c hc r i)

/-- The canonical id pair emitted by slot `(r, i)`. -/
def slotKey (a : Team) (c : List Team) (r i : Nat) : String × String :=
  sortPair (slotPre a c r i).1.team_id (slotPre a c r i).2.team_id

theorem natCast_inj_lt {m : ℕ} (hm : 0 < m) {x y : ℕ} (hx : x < m) (hy : y < m)
    (h : (x : ZMod m) = y) : x = y := by
  haveI : NeZero m := ⟨hm.ne'⟩
  have hv := congrArg ZMod.val h
  rwa [ZMod.val_cast_of_lt hx, ZMod.val_cast_of_lt hy] at hv

theorem zmod_cancel_two {m : ℕ} (hm : 0 < m) (hodd : Odd m) {x y : ZMod m}
    (h : 2 * x = 2 * y) : x = y := by
  haveI : NeZero m := ⟨hm.ne'⟩
  have hu : IsUnit (2 : ZMod m) := by
    have h2 : IsUnit ((2 : ℕ) : ZMod m) :=
      (ZMod.isUnit_iff_coprime 2 m).mpr (Nat.coprime_two_left.mpr hodd)
    simpa using h2
  exact hu.mul_left_cancel h

theorem cAt_id_inj (a : Team) (c : List Team) (hc : c ≠ [])
    (hnd : ((a :: c).map Team.team_id).Nodup)
    {z z' : ZMod c.length} (h : (cAt c z).team_id = (cAt c z').team_id) : z = z' := by
  haveI : NeZero c.length := ⟨fun h0 => hc (List.length_eq_zero.mp h0)⟩
  rw [List.map_cons] at hnd
  have hcn : (c.map Team.team_id).Nodup := hnd.of_cons
  rw [cAt, cAt, List.getD_eq_getElem c _ (ZMod.val_lt z),
    List.getD_eq_getElem c _ (ZMod.val_lt z')] at h
  have h2 : (c.map Team.team_id).get ⟨z.val, by simpa using ZMod.val_lt z⟩ =
      (c.map Team.team_id).get ⟨z'.val, by simpa using ZMod.val_lt z'⟩ := by
    simpa using h
  have hv : z.val = z'.val := (List.Nodup.getElem_inj_iff hcn).mp h2
  exact ZMod.val_injective _ hv

theorem a_id_ne_cAt (a : Team) (c : List Team) (hc : c ≠ [])
    (hnd : ((a :: c).map Team.team_id).Nodup) (z : ZMod c.length) :
    a.team_id ≠ (cAt c z).team_id := by
  rw [List.map_cons] at hnd
  intro he
  exact (List.nodup_cons.mp hnd).1
    (he ▸ List.mem_map_of_mem Team.team_id (cAt_mem c hc z))

theorem slotKey_inj (a : Team) (c : List Team) (hc : c ≠ [])
    (hodd : Odd c.length) (hnd : ((a :: c).map Team.team_id).Nodup)
    {r r' i i' : Nat} (hr : r < c.length) (hr' : r' < c.length)
    (hi : i < (c.length + 1) / 2) (hi' : i' < (c.length + 1) / 2)
    (heq : slotKey a c r i = slotKey a c r' i') : r = r' ∧ i = i' := by
  have hm : 0 < c.length := List.length_pos.mpr hc
  haveI : NeZero c.length := ⟨hm.ne'⟩
  have hhalf : (c.length + 1) / 2 ≤ c.length := by
    obtain ⟨u, hu⟩ := hodd; omega
  have hrr : (r : ZMod c.length) = (r' : ZMod c.length) → r = r' :=
    fun h => natCast_inj_lt hm hr hr' h
  cases i with
  | zero =>
    cases i' with
    | zero =>
      rw [slotKey, slotKey, slotPre, slotPre, if_pos rfl, if_pos rfl] at heq
      dsimp only at heq
      rcases sortPair_eq_iff.mp heq with ⟨-, h2⟩ | ⟨h1, -⟩
      · have hz : (-1 - (r : ZMod c.length)) = (-1 - (r' : ZMod c.length)) :=
          cAt_id_inj a c hc hnd h2
        have : (r : ZMod c.length) = r' := by linear_combination -hz
        exact ⟨hrr this, rfl⟩
      · exact absurd h1 (a_id_ne_cAt a c hc hnd _)
    | succ q' =>
      rw [slotKey, slotKey, slotPre, slotPre, if_pos rfl,
        if_neg (Nat.succ_ne_zero q')] at heq
      dsimp only at heq
      rcases sortPair_eq_iff.mp heq with ⟨h1, -⟩ | ⟨h1, -⟩ <;>
        exact absurd h1 (a_id_ne_cAt a c hc hnd _)
  | succ q =>
    cases i' with
    | zero =>
      rw [slotKey, slotKey, slotPre, slotPre, if_neg (Nat.succ_ne_zero q),
        if_pos rfl] at heq
      dsimp only at heq
      rcases sortPair_eq_iff.mp heq with ⟨h1, -⟩ | ⟨-, h2⟩ <;>
        [exact absurd h1.symm (a_id_ne_cAt a c hc hnd _);
         exact absurd h2.symm (a_id_ne_cAt a c hc hnd _)]
    | succ q' =>
      rw [slotKey, slotKey, slotPre, slotPre, if_neg (Nat.succ_ne_zero q),
        if_neg (Nat.succ_ne_zero q')] at heq
      dsimp only at heq
      have hqlt : (q : ℕ) + 1 < c.length + 1 := by omega
      have hqlt' : (q' : ℕ) + 1 < c.length + 1 := by omega
      rcases sortPair_eq_iff.mp heq with ⟨h1, h2⟩ | ⟨h1, h2⟩
      · have e1 := cAt_id_inj a c hc hnd h1
        have e2 := cAt_id_inj a c hc hnd h2
        push_cast at e1 e2
        have her : (r : ZMod c.length) = r' :=
          zmod_cancel_two hm hodd (by linear_combination -e1 - e2)
        have hei : ((q + 1 : ℕ) : ZMod c.length) = ((q' + 1 : ℕ) : ZMod c.length) := by
          push_cast
          linear_combination e1 + her
        have := natCast_inj_lt hm (by omega : q + 1 < c.length)
          (by omega : q' + 1 < c.length) hei
        exact ⟨hrr her, this⟩
      · have e1 := cAt_id_inj a c hc hnd h1
        have e2 := cAt_id_inj a c hc hnd h2
        push_cast at e1 e2
        have her : (r : ZMod c.length) = r' :=
          zmod_cancel_two hm hodd (by linear_combination -e1 - e2)
        have hzero : (((q + 1) + (q' + 1) : ℕ) : ZMod c.length) = 0 := by
          push_cast
          linear_combination e1 + her
        rw [ZMod.natCast_zmod_eq_zero_iff_dvd] at hzero
        have hle := Nat.le_of_dvd (by omega) hzero
        obtain ⟨u, hu⟩ := hodd
        omega

theorem sortPair_cases (x y : String) :
    sortPair x y = (x, y) ∨ sortPair x y = (y, x) := by
  unfold sortPair
  split_ifs <;> simp

theorem sortPair_canon (x y : String) :
    sortPair (sortPair x y).1 (sortPair x y).2 = sortPair x y := by
  by_cases h : pyStrLe x y
  · simp [sortPair, h]
  · have h' : pyStrLe y x = true := by
      rcases strLeB_total x.data y.data with ht | ht
      · exact absurd ht (by simpa [pyStrLe] using h)
      · exact ht
    simp [sortPair, h, h']

theorem slotPre_ids_ne (a : Team) (c : List Team) (hc : c ≠ [])
    (hodd : Odd c.length) (hnd : ((a :: c).map Team.team_id).Nodup)
    {r i : Nat} (hi : i < (c.length + 1) / 2) :
    (slotPre a c r i).1.team_id ≠ (slotPre a c r i).2.team_id := by
  have hm : 0 < c.length := List.length_pos.mpr hc
  haveI : NeZero c.length := ⟨hm.ne'⟩
  cases i with
  | zero =>
    rw [slotPre, if_pos rfl]
    exact a_id_ne_cAt a c hc hnd _
  | succ q =>
    rw [slotPre, if_neg (Nat.succ_ne_zero q)]
    intro he
    have e := cAt_id_inj a c hc hnd he
    push_cast at e
    have hzero : ((2 * q + 2 : ℕ) : ZMod c.length) = 0 := by
      push_cast
      linear_combination e
    rw [ZMod.natCast_zmod_eq_zero_iff_dvd] at hzero
    have hle := Nat.le_of_dvd (by omega) hzero
    obtain ⟨u, hu⟩ := hodd
    omega

/-- All endpoints of a round, home and away sides interleaved. -/
def roundTeams (rd : List (Team × Team)) : List Team :=
  rd.flatMap (fun p => [p.1, p.2])

/-- Whether a `(home, away)` pair is a match between `t1` and `t2` (in
either orientation), compared by team id. -/
def pairIs (t1 t2 : Team) (p : Team × Team) : Bool :=
  (p.1.team_id = t1.team_id ∧ p.2.team_id = t2.team_id) ∨
    (p.1.team_id = t2.team_id ∧ p.2.team_id = t1.team_id)

theorem flatMap_perm_congr {α β : Type} (l : List α) (f g : α → List β)
    (h : ∀ x ∈ l, (f x).Perm (g x)) : (l.flatMap f).Perm (l.flatMap g) := by
  induction l with
  | nil => exact List.Perm.refl _
  | cons x l ih =>
    rw [List.flatMap_cons, List.flatMap_cons]
    exact (h x (List.mem_cons_self x l)).append
      (ih (fun y hy => h y (List.mem_cons_of_mem x hy)))

theorem pairing_flatMap_perm {α : Type} (d : α) : ∀ (k : Nat) (l : List α),
    l.length = 2 * k →
    ((List.range k).flatMap
      (fun i => [l.getD i d, l.getD (l.length - 1 - i) d])).Perm l := by
  intro k
  induction k with
  | zero =>
    intro l hl
    have h0 : l = [] := List.length_eq_zero.mp (by omega)
    subst h0
    exact List.Perm.refl _
  | succ k ih =>
    intro l hl
    obtain ⟨x, l', rfl⟩ : ∃ x l', l = x :: l' := by
      cases l with
      | nil => simp at hl
      | cons x l' => exact ⟨x, l', rfl⟩
    have hl' : l'.length = 2 * k + 1 := by
      simp only [List.length_cons] at hl
      omega
    have hne : l' ≠ [] := by intro h; rw [h] at hl'; simp at hl'
    obtain ⟨dl, lst, rfl⟩ : ∃ dl lst, l' = dl ++ [lst] :=
      ⟨l'.dropLast, l'.getLast hne, (List.dropLast_append_getLast hne).symm⟩
    have hdl : dl.length = 2 * k := by
      simp only [List.length_append, List.length_cons, List.length_nil] at hl'
      omega
    rw [List.range_succ_eq_map, List.flatMap_cons, List.flatMap_map]
    have hchunk0 : [(x :: (dl ++ [lst])).getD 0 d,
        (x :: (dl ++ [lst])).getD ((x :: (dl ++ [lst])).length - 1 - 0) d] = [x, lst] := by
      have hlen : (x :: (dl ++ [lst])).length - 1 - 0 = dl.length + 1 := by
        simp only [List.length_cons, List.length_append, List.length_nil]
        omega
      rw [hlen]
      have h1 : (x :: (dl ++ [lst])).getD (dl.length + 1) d =
          (dl ++ [lst]).getD dl.length d := rfl
      rw [h1, List.getD_append_right dl [lst] d dl.length le_rfl]
      simp
    rw [hchunk0]
    have hchunks : ∀ i ∈ List.range k,
        [(x :: (dl ++ [lst])).getD i.succ d,
          (x :: (dl ++ [lst])).getD ((x :: (dl ++ [lst])).length - 1 - i.succ) d] =
        [dl.getD i d, dl.getD (dl.length - 1 - i) d] := by
      intro i hi
      rw [List.mem_range] at hi
      simp only [Nat.succ_eq_add_one]
      have hidx : (x :: (dl ++ [lst])).length - 1 - (i + 1) = (dl.length - 1 - i) + 1 := by
        simp only [List.length_cons, List.length_append, List.length_nil]
        omega
      rw [hidx]
      have h1 : (x :: (dl ++ [lst])).getD (i + 1) d = (dl ++ [lst]).getD i d := rfl
      have h2 : (x :: (dl ++ [lst])).getD ((dl.length - 1 - i) + 1) d =
          (dl ++ [lst]).getD (dl.length - 1 - i) d := rfl
      rw [h1, h2, List.getD_append dl [lst] d i (by omega),
        List.getD_append dl [lst] d _ (by omega)]
    rw [List.flatMap_congr hchunks]
    have hrest := ih dl hdl
    exact ((hrest.cons lst).cons x).trans
      (((List.perm_append_singleton lst dl).symm).cons x)

theorem rotIter_length (a : Team) (c : List Team) (hc : c ≠ []) (r : Nat) :
    (pyRotate^[r] (a :: c)).length = c.length + 1 := by
  rw [pyRotate_iter a c hc r]
  simp

theorem slotPre_eq_getD (a : Team) (c : List Team) (hc : c ≠ [])
    (hodd : Odd c.length) (r : Nat) : ∀ i < (c.length + 1) / 2,
    slotPre a c r i = ((pyRotate^[r] (a :: c)).getD i defaultTeam,
      (pyRotate^[r] (a :: c)).getD ((c.length + 1) - 1 - i) defaultTeam) := by
  have hm : 0 < c.length := List.length_pos.mpr hc
  intro i hi
  cases i with
  | zero =>
    rw [slotPre, if_pos rfl, rotIter_getD_zero a c hc r]
    have hidx : c.length + 1 - 1 - 0 = (c.length - 1) + 1 := by omega
    rw [hidx, rotIter_getD_succ a c hc r (c.length - 1) (by omega)]
    have : ((c.length - 1 : ℕ) : ZMod c.length) - r = -1 - (r : ZMod c.length) := by
      rw [Nat.cast_sub hm, ZMod.natCast_self]
      ring
    rw [this]
  | succ q =>
    have hq : q < c.length := by omega
    have hq2 : q + 2 ≤ c.length := by
      obtain ⟨u, hu⟩ := hodd
      omega
    rw [slotPre, if_neg (Nat.succ_ne_zero q), rotIter_getD_succ a c hc r q hq]
    have hidx : c.length + 1 - 1 - (q + 1) = (c.length - q - 2) + 1 := by omega
    rw [hidx, rotIter_getD_succ a c hc r (c.length - q - 2) (by omega)]
    have e1 : ((q : ℕ) : ZMod c.length) - r =
        ((q + 1 : ℕ) : ZMod c.length) - 1 - r := by
      push_cast
      ring
    have e2 : ((c.length - q - 2 : ℕ) : ZMod c.length) - r =
        -((q + 1 : ℕ) : ZMod c.length) - 1 - r := by
      rw [show (c.length - q - 2 : ℕ) = c.length - (q + 2) by omega,
        Nat.cast_sub hq2, ZMod.natCast_self]
      push_cast
      ring
    rw [e1, e2]

theorem round_teams_perm (a : Team) (c : List Team) (hc : c ≠ [])
    (hodd : Odd c.length) (hbye : ∀ t ∈ a :: c, t.team_id ≠ "bye") (r : Nat) :
    (roundTeams (mkRound (c.length + 1) r (pyRotate^[r] (a :: c)))).Perm (a :: c) := by
  have hm : 0 < c.length := List.length_pos.mpr hc
  obtain ⟨u, hu⟩ := hodd
  have hhalf : (c.length + 1) / 2 = u + 1 := by omega
  rw [mkRound_eq_map a c hc ⟨u, hu⟩ hbye r, roundTeams, List.flatMap_map]
  have hstep1 : ((List.range ((c.length + 1) / 2)).flatMap
      ((fun p : Team × Team => [p.1, p.2]) ∘ (fun i =>
        if (r + i) % 2 = 0 then slotPre a c r i
        else ((slotPre a c r i).2, (slotPre a c r i).1)))).Perm
      ((List.range ((c.length + 1) / 2)).flatMap
        (fun i => [(slotPre a c r i).1, (slotPre a c r i).2])) := by
    apply flatMap_perm_congr
    intro i _
    simp only [Function.comp_apply]
    split_ifs
    · exact List.Perm.refl _
    · exact List.Perm.swap _ _ _
  refine hstep1.trans ?_
  have hstep2 : ((List.range ((c.length + 1) / 2)).flatMap
      (fun i => [(slotPre a c r i).1, (slotPre a c r i).2])) =
      ((List.range ((c.length + 1) / 2)).flatMap
        (fun i => [(pyRotate^[r] (a :: c)).getD i defaultTeam,
          (pyRotate^[r] (a :: c)).getD ((pyRotate^[r] (a :: c)).length - 1 - i)
            defaultTeam])) := by
    apply List.flatMap_congr
    intro i hi
    rw [List.mem_range] at hi
    rw [slotPre_eq_getD a c hc ⟨u, hu⟩ r i hi, rotIter_length a c hc r]
  rw [hstep2]
  have hlen2 : (pyRotate^[r] (a :: c)).length = 2 * ((c.length + 1) / 2) := by
    rw [rotIter_length a c hc r]
    omega
  have hPL := pairing_flatMap_perm defaultTeam ((c.length + 1) / 2)
    (pyRotate^[r] (a :: c)) hlen2
  refine hPL.trans ?_
  rw [pyRotate_iter a c hc r]
  exact (List.rotate_perm c (r * (c.length - 1))).cons a

/-- All canonical id pairs emitted over all rounds of the circle
method. -/
def allKeys (a : Team) (c : List Team) : List (String × String) :=
  (List.range c.length).flatMap
    (fun r => (List.range ((c.length + 1) / 2)).map (slotKey a c r))

theorem allKeys_nodup (a : Team) (c : List Team) (hc : c ≠ [])
    (hodd : Odd c.length) (hnd : ((a :: c).map Team.team_id).Nodup) :
    (allKeys a c).Nodup := by
  rw [allKeys, List.nodup_flatMap]
  constructor
  · intro r hr
    rw [List.mem_range] at hr
    refine List.Nodup.map_on ?_ (List.nodup_range _)
    intro i hi i' hi' he
    rw [List.mem_range] at hi hi'
    exact (slotKey_inj a c hc hodd hnd hr hr hi hi' he).2
  · have hlt : (List.range c.length).Pairwise (· < ·) := List.pairwise_lt_range _
    refine List.Pairwise.imp_of_mem ?_ hlt
    intro r r' hrm hrm' hlt'
    rw [List.mem_range] at hrm hrm'
    intro p hp hp'
    obtain ⟨i, hi, rfl⟩ := List.mem_map.mp hp
    obtain ⟨i', hi', he⟩ := List.mem_map.mp hp'
    rw [List.mem_range] at hi hi'
    exact absurd (slotKey_inj a c hc hodd hnd hrm' hrm hi' hi he).1.symm hlt'.ne

theorem allKeys_length (a : Team) (c : List Team) :
    (allKeys a c).length = c.length * ((c.length + 1) / 2) := by
  rw [allKeys, List.length_flatMap]
  have h1 : (List.range c.length).map
      (List.length ∘ fun r => (List.range ((c.length + 1) / 2)).map (slotKey a c r)) =
      (List.range c.length).map (fun _ => (c.length + 1) / 2) := by
    apply List.map_congr_left
    intro r _
    simp
  rw [h1, List.map_const', List.sum_replicate, smul_eq_mul, List.length_range]

/-- The finset of canonical distinct id pairs over the roster ids. -/
def canonPairs (ids : List String) : Finset (String × String) :=
  ids.toFinset.offDiag.filter (fun p => sortPair p.1 p.2 = p)

theorem canonPairs_card (ids : List String) (hnd : ids.Nodup) :
    2 * (canonPairs ids).card = ids.length * ids.length - ids.length := by
  have hTs : canonPairs ids =
      ids.toFinset.offDiag.filter (fun p => sortPair p.1 p.2 = p) := rfl
  set s := ids.toFinset with hs
  have hcard : s.card = ids.length := List.toFinset_card_of_nodup hnd
  have hpart := Finset.filter_union_filter_neg_eq
    (fun p : String × String => sortPair p.1 p.2 = p) s.offDiag
  have hdisj := Finset.disjoint_filter_filter_neg s.offDiag s.offDiag
    (fun p : String × String => sortPair p.1 p.2 = p)
  have hbij : (s.offDiag.filter (fun p => sortPair p.1 p.2 = p)).card =
      (s.offDiag.filter (fun p => ¬ sortPair p.1 p.2 = p)).card := by
    apply Finset.card_bij (fun p _ => Prod.swap p)
    · intro p hp
      rw [Finset.mem_filter, Finset.mem_offDiag] at hp ⊢
      obtain ⟨⟨h1, h2, h3⟩, h4⟩ := hp
      refine ⟨⟨h2, h1, h3.symm⟩, ?_⟩
      rw [Prod.swap]
      dsimp only
      rw [sortPair_comm, h4]
      intro hcon
      exact h3 (congrArg Prod.fst hcon)
    · intro p hp q hq he
      exact Prod.swap_injective he
    · intro q hq
      rw [Finset.mem_filter, Finset.mem_offDiag] at hq
      obtain ⟨⟨h1, h2, h3⟩, h4⟩ := hq
      refine ⟨Prod.swap q, ?_, (Prod.swap_swap q).symm⟩
      rw [Finset.mem_filter, Finset.mem_offDiag]
      refine ⟨⟨h2, h1, h3.symm⟩, ?_⟩
      rw [Prod.swap]
      dsimp only
      rw [sortPair_comm]
      rcases sortPair_cases q.1 q.2 with h | h
      · exact absurd (by rw [h]) h4
      · rw [h]
  have hsum : (canonPairs ids).card +
      (s.offDiag.filter (fun p => ¬ sortPair p.1 p.2 = p)).card = s.offDiag.card := by
    rw [hTs, ← Finset.card_union_of_disjoint hdisj, hpart]
  rw [Finset.offDiag_card, hcard] at hsum
  rw [hTs]
  rw [hTs] at hsum
  omega

theorem allKeys_mem_canon (a : Team) (c : List Team) (hc : c ≠ [])
    (hodd : Odd c.length) (hnd : ((a :: c).map Team.team_id).Nodup) :
    ∀ p ∈ allKeys a c, p ∈ canonPairs ((a :: c).map Team.team_id) := by
  intro p hp
  rw [allKeys, List.mem_flatMap] at hp
  obtain ⟨r, hr, hp⟩ := hp
  obtain ⟨i, hi, rfl⟩ := List.mem_map.mp hp
  rw [List.mem_range] at hr hi
  rw [canonPairs, Finset.mem_filter, Finset.mem_offDiag]
  have hx : (slotPre a c r i).1.team_id ∈ ((a :: c).map Team.team_id).toFinset := by
    rw [List.mem_toFinset]
    exact List.mem_map_of_mem _ (slotPre_fst_mem a c hc r i)
  have hy : (slotPre a c r i).2.team_id ∈ ((a :: c).map Team.team_id).toFinset := by
    rw [List.mem_toFinset]
    exact List.mem_map_of_mem _ (slotPre_snd_mem a c hc r i)
  have hne := slotPre_ids_ne a c hc hodd hnd hi (r := r)
  rcases sortPair_cases (slotPre a c r i).1.team_id (slotPre a c r i).2.team_id with h | h
  · rw [slotKey, h]
    exact ⟨⟨hx, hy, hne⟩, by rw [← h]; exact sortPair_canon _ _⟩
  · rw [slotKey, h]
    exact ⟨⟨hy, hx, hne.symm⟩, by rw [← h]; exact sortPair_canon _ _⟩

theorem countP_eq_one_of_nodup_mem {α : Type} [DecidableEq α] (l : List α) (x : α)
    (hnd : l.Nodup) (hx : x ∈ l) : l.countP (fun y => y = x) = 1 := by
  induction l with
  | nil => cases hx
  | cons hd tl ih =>
    rcases List.nodup_cons.mp hnd with ⟨hht, hT⟩
    by_cases heq : hd = x
    · rw [List.countP_cons_of_pos _ _ (by simp [heq])]
      have hz : tl.countP (fun y => y = x) = 0 := by
        rw [List.countP_eq_zero]
        intro y hy hcon
        have hyx : y = x := by simpa using hcon
        exact hht (by rw [heq]; exact hyx ▸ hy)
      omega
    · have hx2 : x ∈ tl := by
        rcases List.mem_cons.mp hx with h1 | h1
        · exact absurd h1.symm heq
        · exact h1
      rw [List.countP_cons_of_neg _ _ (by simpa using heq), ih hT hx2]

theorem allKeys_count (a : Team) (c : List Team) (hc : c ≠ [])
    (hodd : Odd c.length) (hnd : ((a :: c).map Team.team_id).Nodup)
    (t1 t2 : Team) (h1 : t1 ∈ a :: c) (h2 : t2 ∈ a :: c)
    (hne : t1.team_id ≠ t2.team_id) :
    (allKeys a c).countP (fun q => q = sortPair t1.team_id t2.team_id) = 1 := by
  have hm : 0 < c.length := List.length_pos.mpr hc
  have hndup := allKeys_nodup a c hc hodd hnd
  -- the emitted keys exhaust the canonical pairs
  have hsub : (allKeys a c).toFinset ⊆ canonPairs ((a :: c).map Team.team_id) := by
    intro p hp
    exact allKeys_mem_canon a c hc hodd hnd p (List.mem_toFinset.mp hp)
  have hcardAK : (allKeys a c).toFinset.card = c.length * ((c.length + 1) / 2) := by
    rw [List.toFinset_card_of_nodup hndup, allKeys_length]
  have hcardT : 2 * (canonPairs ((a :: c).map Team.team_id)).card =
      (c.length + 1) * (c.length + 1) - (c.length + 1) := by
    have := canonPairs_card ((a :: c).map Team.team_id) hnd
    simpa using this
  have hcards : (canonPairs ((a :: c).map Team.team_id)).card ≤
      (allKeys a c).toFinset.card := by
    obtain ⟨u, hu⟩ := hodd
    rw [hcardAK]
    have he1 : (c.length + 1) * (c.length + 1) - (c.length + 1) =
        (c.length + 1) * c.length := by
      rw [Nat.mul_succ]
      omega
    rw [he1] at hcardT
    have he2 : (c.length + 1) * c.length = 2 * (c.length * ((c.length + 1) / 2)) := by
      rw [show (c.length + 1) / 2 = u + 1 by omega, hu]
      ring
    rw [he2] at hcardT
    omega
  have hfin : (allKeys a c).toFinset = canonPairs ((a :: c).map Team.team_id) :=
    Finset.eq_of_subset_of_card_le hsub hcards
  have hmemT : sortPair t1.team_id t2.team_id ∈
      canonPairs ((a :: c).map Team.team_id) := by
    rw [canonPairs, Finset.mem_filter, Finset.mem_offDiag]
    have hx : t1.team_id ∈ ((a :: c).map Team.team_id).toFinset := by
      rw [List.mem_toFinset]; exact List.mem_map_of_mem _ h1
    have hy : t2.team_id ∈ ((a :: c).map Team.team_id).toFinset := by
      rw [List.mem_toFinset]; exact List.mem_map_of_mem _ h2
    rcases sortPair_cases t1.team_id t2.team_id with h | h
    · rw [h]
      exact ⟨⟨hx, hy, hne⟩, by rw [← h]; exact sortPair_canon _ _⟩
    · rw [h]
      exact ⟨⟨hy, hx, hne.symm⟩, by rw [← h]; exact sortPair_canon _ _⟩
  have hmem : sortPair t1.team_id t2.team_id ∈ allKeys a c := by
    rw [← List.mem_toFinset, hfin]
    exact hmemT
  exact countP_eq_one_of_nodup_mem (allKeys a c) _ hndup hmem

theorem pairIs_eq (t1 t2 : Team) (p : Team × Team) :
    pairIs t1 t2 p =
      decide (sortPair p.1.team_id p.2.team_id = sortPair t1.team_id t2.team_id) := by
  rw [pairIs, decide_eq_decide]
  exact sortPair_eq_iff.symm

theorem countP_ne_zero_of_sum_one : ∀ (L : List Nat), L.sum = 1 →
    L.countP (fun n => n ≠ 0) = 1 := by
  intro L
  induction L with
  | nil => intro h; simp at h
  | cons n t ih =>
    intro h
    rw [List.sum_cons] at h
    cases n with
    | zero =>
      rw [List.countP_cons_of_neg _ _ (by simp)]
      exact ih (by omega)
    | succ k =>
      rw [List.countP_cons_of_pos _ _ (by simp)]
      have ht : t.sum = 0 := by omega
      have hz : t.countP (fun n => n ≠ 0) = 0 := by
        rw [List.countP_eq_zero]
        intro y hy hcon
        have hy0 : y = 0 := List.sum_eq_zero_iff.mp ht y hy
        simp [hy0] at hcon
      omega

theorem round_countP (a : Team) (c : List Team) (hc : c ≠ [])
    (hodd : Odd c.length) (hbye : ∀ t ∈ a :: c, t.team_id ≠ "bye")
    (t1 t2 : Team) (r : Nat) :
    (mkRound (c.length + 1) r (pyRotate^[r] (a :: c))).countP (pairIs t1 t2) =
      ((List.range ((c.length + 1) / 2)).map (slotKey a c r)).countP
        (fun q => q = sortPair t1.team_id t2.team_id) := by
  rw [mkRound_eq_map a c hc hodd hbye r, List.countP_map, List.countP_map]
  apply List.countP_congr
  intro i _
  simp only [Function.comp_apply]
  rw [pairIs_eq]
  have horient : sortPair (if (r + i) % 2 = 0 then slotPre a c r i
      else ((slotPre a c r i).2, (slotPre a c r i).1)).1.team_id
      (if (r + i) % 2 = 0 then slotPre a c r i
      else ((slotPre a c r i).2, (slotPre a c r i).1)).2.team_id =
      slotKey a c r i := by
    split_ifs
    · rfl
    · exact sortPair_comm _ _
  rw [horient]

/-- C1 (counterexample to the claim as stated): with distinct team ids
one of which is the sentinel `"bye"` — reachable by naming a team
`"BYE"`, whose derived id is `"bye"` — an even two-team league yields a
round with no matches at all, so "each round consists of N/2 pairs in
which every team appears exactly once" fails. -/
theorem c1_bye_id_counterexample :
    ∃ teams : List Team, teams.length = 2 ∧
      (teams.map Team.team_id).Nodup ∧
      generate_round_robin_pairs teams = [[]] ∧
      ¬ (∀ rd ∈ generate_round_robin_pairs teams, rd.length = teams.length / 2) := by
  refine ⟨[mkTeam "BYE" "Nowhere" "", teamA], by decide, by decide, by decide, ?_⟩
  intro h
  have := h [] (by decide)
  simp at this

/-- C1 (amended, adding that no roster id equals the sentinel `"bye"`):
on an even roster of at least two teams with pairwise distinct ids none
of which is `"bye"`, `generate_round_robin_pairs` returns exactly
`N - 1` rounds; every round has `N / 2` pairs whose endpoints are a
permutation of the roster (each team appears exactly once); and every
unordered pair of distinct teams appears in exactly one match across the
whole schedule, hence in exactly one round. -/
theorem c1_round_robin_correct (teams : List Team)
    (hlen : 2 ≤ teams.length) (heven : teams.length % 2 = 0)
    (hnd : (teams.map Team.team_id).Nodup)
    (hbye : ∀ t ∈ teams, t.team_id ≠ "bye") :
    (generate_round_robin_pairs teams).length = teams.length - 1 ∧
    (∀ rd ∈ generate_round_robin_pairs teams,
      rd.length = teams.length / 2 ∧ (roundTeams rd).Perm teams) ∧
    (∀ t1 ∈ teams, ∀ t2 ∈ teams, t1.team_id ≠ t2.team_id →
      ((generate_round_robin_pairs teams).map
        (fun rd => rd.countP (pairIs t1 t2))).sum = 1 ∧
      (generate_round_robin_pairs teams).countP
        (fun rd => rd.any (pairIs t1 t2)) = 1) := by
  obtain ⟨a, c, rfl⟩ : ∃ a c, teams = a :: c := by
    cases teams with
    | nil => simp at hlen
    | cons a c => exact ⟨a, c, rfl⟩
  simp only [List.length_cons] at hlen heven
  have hc : c ≠ [] := by
    intro h
    rw [h] at hlen
    simp at hlen
  have hm : 0 < c.length := List.length_pos.mpr hc
  have hodd : Odd c.length := by
    rw [Nat.odd_iff]
    omega
  have hgen : generate_round_robin_pairs (a :: c) =
      (List.range c.length).map
        (fun r => mkRound (c.length + 1) r (pyRotate^[r] (a :: c))) := by
    unfold generate_round_robin_pairs
    simp only [List.length_cons]
    rw [if_neg (by omega), if_neg (by omega), Nat.add_sub_cancel, rrGo_eq_map]
    apply List.map_congr_left
    intro j _
    rw [Nat.zero_add]
  refine ⟨?_, ?_, ?_⟩
  · rw [hgen]
    simp
  · intro rd hrd
    rw [hgen] at hrd
    obtain ⟨r, hr, rfl⟩ := List.mem_map.mp hrd
    rw [List.mem_range] at hr
    constructor
    · rw [mkRound_eq_map a c hc hodd hbye r]
      simp
    · exact round_teams_perm a c hc hodd hbye r
  · intro t1 h1 t2 h2 hne
    have hsumA : ((generate_round_robin_pairs (a :: c)).map
        (fun rd => rd.countP (pairIs t1 t2))).sum = 1 := by
      rw [hgen, List.map_map]
      have hpt : (List.range c.length).map
          ((fun rd => rd.countP (pairIs t1 t2)) ∘
            (fun r => mkRound (c.length + 1) r (pyRotate^[r] (a :: c)))) =
          (List.range c.length).map
            (fun r => ((List.range ((c.length + 1) / 2)).map (slotKey a c r)).countP
              (fun q => q = sortPair t1.team_id t2.team_id)) := by
        apply List.map_congr_left
        intro r _
        exact round_countP a c hc hodd hbye t1 t2 r
      rw [hpt]
      have hflat : (allKeys a c).countP
          (fun q => q = sortPair t1.team_id t2.team_id) =
          ((List.range c.length).map
            (fun r => ((List.range ((c.length + 1) / 2)).map (slotKey a c r)).countP
              (fun q => q = sortPair t1.team_id t2.team_id))).sum := by
        rw [allKeys, List.flatMap_def, List.countP_flatten, List.map_map]
        rfl
      rw [← hflat]
      exact allKeys_count a c hc hodd hnd t1 t2 h1 h2 hne
    refine ⟨hsumA, ?_⟩
    rw [hgen, List.countP_map]
    rw [hgen, List.map_map] at hsumA
    have hpt2 : (List.range c.length).countP
        ((fun rd => rd.any (pairIs t1 t2)) ∘
          (fun r => mkRound (c.length + 1) r (pyRotate^[r] (a :: c)))) =
        ((List.range c.length).map
          ((fun rd => rd.countP (pairIs t1 t2)) ∘
            (fun r => mkRound (c.length + 1) r (pyRotate^[r] (a :: c))))).countP
          (fun n => n ≠ 0) := by
      rw [List.countP_map]
      apply List.countP_congr
      intro r _
      simp only [Function.comp_apply]
      cases hany : (mkRound (c.length + 1) r (pyRotate^[r] (a :: c))).any (pairIs t1 t2)
      · rw [List.any_eq_false] at hany
        have hz : (mkRound (c.length + 1) r (pyRotate^[r] (a :: c))).countP
            (pairIs t1 t2) = 0 := by
          rw [List.countP_eq_zero]
          exact hany
        simp [hz]
      · rw [List.any_eq_true] at hany
        obtain ⟨p, hp, hpi⟩ := hany
        have hpos : 0 < (mkRound (c.length + 1) r (pyRotate^[r] (a :: c))).countP
            (pairIs t1 t2) := List.countP_pos.mpr ⟨p, hp, hpi⟩
        have hnz : (mkRound (c.length + 1) r (pyRotate^[r] (a :: c))).countP
            (pairIs t1 t2) ≠ 0 := by omega
        simp [hnz]
    rw [hpt2]
    exact countP_ne_zero_of_sum_one _ hsumA

theorem c1_round_robin_correct_witness :
    (2 ≤ ([teamA, teamB, teamC, teamD] : List Team).length ∧
      ([teamA, teamB, teamC, teamD] : List Team).length % 2 = 0 ∧
      (([teamA, teamB, teamC, teamD] : List Team).map Team.team_id).Nodup ∧
      (∀ t ∈ ([teamA, teamB, teamC, teamD] : List Team), t.team_id ≠ "bye")) ∧
    ((generate_round_robin_pairs [teamA, teamB, teamC, teamD]).length =
        ([teamA, teamB, teamC, teamD] : List Team).length - 1 ∧
      (∀ rd ∈ generate_round_robin_pairs [teamA, teamB, teamC, teamD],
        rd.length = ([teamA, teamB, teamC, teamD] : List Team).length / 2 ∧
          (roundTeams rd).Perm [teamA, teamB, teamC, teamD]) ∧
      (∀ t1 ∈ ([teamA, teamB, teamC, teamD] : List Team),
        ∀ t2 ∈ ([teamA, teamB, teamC, teamD] : List Team),
        t1.team_id ≠ t2.team_id →
        ((generate_round_robin_pairs [teamA, teamB, teamC, teamD]).map
          (fun rd => rd.countP (pairIs t1 t2))).sum = 1 ∧
        (generate_round_robin_pairs [teamA, teamB, teamC, teamD]).countP
          (fun rd => rd.any (pairIs t1 t2)) = 1)) :=
  ⟨⟨by decide, by decide, by decide, by decide⟩,
    c1_round_robin_correct [teamA, teamB, teamC, teamD]
      (by decide) (by decide) (by decide) (by decide)⟩

/-! ## C10 — generated fixtures pass validation -/

/-- A balancer output pair is the input pair or its home/away swap. -/
def pairSwapR (q p : Team × Team) : Prop := q = p ∨ q = (p.2, p.1)

/-- The match record built by `generate_fixtures` for round index `r`
and pair `p` (the body of its construction loop, as a function). -/
def fixtureOf (dateOf : Nat → String) (r : Nat) (p : Team × Team) : Match :=
  { match_id := "w" ++ toString (r + 1) ++ "_" ++ p.1.team_id ++ "_vs_" ++ p.2.team_id,
    home_team_id := p.1.team_id,
    away_team_id := p.2.team_id,
    home_team_name := p.1.name,
    away_team_name := p.2.name,
    week := (r + 1 : Int),
    scheduled_date := some (dateOf (r + 1)) }

theorem balRound_forall2 (round_idx : Nat) (ps : List (Team × Team)) :
    ∀ st, List.Forall₂ pairSwapR (balRound round_idx st ps).2 ps := by
  induction ps with
  | nil => intro st; exact List.Forall₂.nil
  | cons p ps ih =>
    intro st
    simp only [balRound]
    exact List.Forall₂.cons (balStep_snd round_idx st p) (ih _)

theorem balGo_forall2 (rds : List (List (Team × Team))) :
    ∀ st idx, List.Forall₂ (List.Forall₂ pairSwapR) (balGo st idx rds) rds := by
  induction rds with
  | nil => intro st idx; exact List.Forall₂.nil
  | cons rd rds ih =>
    intro st idx
    simp only [balGo]
    exact List.Forall₂.cons (balRound_forall2 idx rd st) (ih _ _)

theorem forall2_mem_left {α : Type} {R : α → α → Prop} :
    ∀ {l1 l2 : List α}, List.Forall₂ R l1 l2 → ∀ x ∈ l1, ∃ y ∈ l2, R x y := by
  intro l1 l2 h
  induction h with
  | nil => intro x hx; exact absurd hx (List.not_mem_nil x)
  | cons hR _ ih =>
    intro x hx
    rcases List.mem_cons.mp hx with rfl | hx2
    · exact ⟨_, List.mem_cons_self _ _, hR⟩
    · obtain ⟨y, hy, hxy⟩ := ih x hx2
      exact ⟨y, List.mem_cons_of_mem _ hy, hxy⟩

theorem forall2_map_eq {α β : Type} {f : α → β} {R : α → α → Prop}
    (hR : ∀ x y, R x y → f x = f y) :
    ∀ {l1 l2 : List α}, List.Forall₂ R l1 l2 → l1.map f = l2.map f := by
  intro l1 l2 h
  induction h with
  | nil => rfl
  | cons hab _ ih => simp only [List.map_cons, hR _ _ hab, ih]

theorem forall2_flatMap_perm {α β : Type} {R : α → α → Prop} (g : α → List β)
    (hR : ∀ x y, R x y → (g x).Perm (g y)) :
    ∀ {l1 l2 : List α}, List.Forall₂ R l1 l2 → (l1.flatMap g).Perm (l2.flatMap g) := by
  intro l1 l2 h
  induction h with
  | nil => exact List.Perm.refl _
  | cons hab _ ih =>
    rw [List.flatMap_cons, List.flatMap_cons]
    exact (hR _ _ hab).append ih

theorem forall2_getD {α : Type} {R : α → α → Prop} (d e : α) :
    ∀ {l1 l2 : List α}, List.Forall₂ R l1 l2 → ∀ i, i < l1.length →
      R (l1.getD i d) (l2.getD i e) := by
  intro l1 l2 h
  induction h with
  | nil => intro i hi; simp at hi
  | cons hab _ ih =>
    intro i hi
    cases i with
    | zero => simpa using hab
    | succ i =>
      simp only [List.getD_cons_succ]
      exact ih i (by simp only [List.length_cons] at hi; omega)

theorem enumFrom_flatMap {α β : Type} (g : Nat × α → List β) (d : α) :
    ∀ (l : List α) (k : Nat),
      (l.enumFrom k).flatMap g =
        (List.range l.length).flatMap (fun i => g (k + i, l.getD i d)) := by
  intro l
  induction l with
  | nil => intro k; rfl
  | cons x l ih =>
    intro k
    rw [List.enumFrom_cons, List.flatMap_cons, List.length_cons, List.range_succ_eq_map,
      List.flatMap_cons, List.flatMap_map, ih (k + 1)]
    congr 1
    apply List.flatMap_congr
    intro i _
    simp only [Function.comp_apply, Nat.succ_eq_add_one, List.getD_cons_succ]
    have he : k + 1 + i = k + (i + 1) := by omega
    rw [he]

theorem enum_flatMap {α β : Type} (g : Nat × α → List β) (d : α) (l : List α) :
    l.enum.flatMap g = (List.range l.length).flatMap (fun i => g (i, l.getD i d)) := by
  have h := enumFrom_flatMap g d l 0
  rw [show l.enumFrom 0 = l.enum from rfl] at h
  simpa using h

theorem dupScan_eq_nil : ∀ (ms : List Match) (seen : List (String × String)),
    (ms.map Match.pairKey).Nodup →
    (∀ mm ∈ ms, mm.pairKey ∉ seen) → dupScan ms seen = [] := by
  intro ms
  induction ms with
  | nil => intro seen _ _; rfl
  | cons mm ms ih =>
    intro seen hnd hseen
    have hstep : dupScan (mm :: ms) seen =
        if mm.pairKey ∈ seen then dupMsg mm :: dupScan ms seen
        else dupScan ms (mm.pairKey :: seen) := rfl
    rw [hstep, if_neg (hseen mm (List.mem_cons_self mm ms))]
    rw [List.map_cons, List.nodup_cons] at hnd
    apply ih _ hnd.2
    intro m2 hm2 hcon
    rcases List.mem_cons.mp hcon with he | hin
    · exact hnd.1 (by rw [← he]; exact List.mem_map_of_mem Match.pairKey hm2)
    · exact hseen m2 (List.mem_cons_of_mem mm hm2) hin

theorem weekScan_eq_nil : ∀ (ms : List Match) (wt : Int → List String),
    (∀ w : Int, (wt w ++ ms.flatMap (fun mm =>
      if mm.week = w then [mm.home_team_id, mm.away_team_id] else [])).Nodup) →
    weekScan ms wt = [] := by
  intro ms
  induction ms with
  | nil => intro wt _; rfl
  | cons mm ms ih =>
    intro wt h
    have hk := h mm.week
    rw [List.flatMap_cons, if_pos rfl] at hk
    have hdisj := List.disjoint_of_nodup_append hk
    have hh : mm.home_team_id ∉ wt mm.week := fun hmem => hdisj hmem (by simp)
    have ha : mm.away_team_id ∉ wt mm.week := fun hmem => hdisj hmem (by simp)
    have hstep : weekScan (mm :: ms) wt =
        (if mm.home_team_id ∈ wt mm.week then
          ["Week clash: " ++ mm.home_team_name ++ " plays multiple times in week " ++
            toString mm.week] else []) ++
        (if mm.away_team_id ∈ wt mm.week then
          ["Week clash: " ++ mm.away_team_name ++ " plays multiple times in week " ++
            toString mm.week] else []) ++
        weekScan ms (fun w =>
          if w = mm.week then mm.away_team_id :: mm.home_team_id :: wt mm.week
          else wt w) := rfl
    rw [hstep, if_neg hh, if_neg ha]
    simp only [List.nil_append]
    apply ih
    intro w
    by_cases hw : w = mm.week
    · subst hw
      rw [if_pos rfl]
      have hperm : (wt mm.week ++ mm.home_team_id :: mm.away_team_id ::
            ms.flatMap (fun m2 =>
              if m2.week = mm.week then [m2.home_team_id, m2.away_team_id] else [])).Perm
          (mm.away_team_id :: mm.home_team_id :: (wt mm.week ++
            ms.flatMap (fun m2 =>
              if m2.week = mm.week then [m2.home_team_id, m2.away_team_id] else []))) :=
        List.perm_middle.trans ((List.Perm.cons _ List.perm_middle).trans
          (List.Perm.swap _ _ _))
      exact (List.cons_append _ _ _) ▸ (List.cons_append _ _ _) ▸ hperm.nodup_iff.mp hk
    · rw [if_neg hw]
      have h2 := h w
      rw [List.flatMap_cons, if_neg (fun he => hw he.symm)] at h2
      simpa using h2

theorem flatMap_ite_const {α : Type} (C : Prop) [Decidable C] (l : List α)
    (A : α → List String) :
    (l.flatMap fun p => if C then A p else []) = if C then l.flatMap A else [] := by
  by_cases h : C
  · simp only [if_pos h]
  · simp only [if_neg h]
    exact List.flatMap_eq_nil_iff.mpr (fun _ _ => rfl)

theorem flatMap_ite_nil {Q : Nat → Prop} [DecidablePred Q] (f : Nat → List String)
    (l : List Nat) (h : ∀ r ∈ l, ¬ Q r) :
    l.flatMap (fun r => if Q r then f r else []) = [] :=
  List.flatMap_eq_nil_iff.mpr (fun r hr => if_neg (h r hr))

theorem nodup_flatMap_single {Q : Nat → Prop} [DecidablePred Q] (f : Nat → List String)
    (k : Nat) (hQ : ∀ r, Q r ↔ r = k) (hf : (f k).Nodup) :
    ∀ l : List Nat, l.Nodup → (l.flatMap (fun r => if Q r then f r else [])).Nodup := by
  intro l
  induction l with
  | nil => intro _; simp
  | cons x l ih =>
    intro hnd
    rcases List.nodup_cons.mp hnd with ⟨hx, hl⟩
    rw [List.flatMap_cons]
    by_cases hq : Q x
    · have hxk : x = k := (hQ x).mp hq
      rw [if_pos hq]
      have hrest : l.flatMap (fun r => if Q r then f r else []) = [] := by
        apply flatMap_ite_nil
        intro r hr hQr
        have hrk : r = k := (hQ r).mp hQr
        rw [hrk, ← hxk] at hr
        exact hx hr
      rw [hrest, List.append_nil, hxk]
      exact hf
    · rw [if_neg hq, List.nil_append]
      exact ih hl

theorem pairIdOf_resp (p q : Team × Team) (h : pairSwapR p q) :
    pairIdOf p = pairIdOf q := by
  rcases h with rfl | rfl
  · rfl
  · exact pairIdOf_swap q

theorem mkRound_map_pairIdOf (a : Team) (c : List Team) (hc : c ≠ [])
    (hodd : Odd c.length) (hbye : ∀ t ∈ a :: c, t.team_id ≠ "bye") (r : Nat) :
    (mkRound (c.length + 1) r (pyRotate^[r] (a :: c))).map pairIdOf =
      (List.range ((c.length + 1) / 2)).map (slotKey a c r) := by
  rw [mkRound_eq_map a c hc hodd hbye r, List.map_map]
  apply List.map_congr_left
  intro i _
  simp only [Function.comp_apply]
  split_ifs
  · rfl
  · exact pairIdOf_swap _

theorem roundTeams_map_id (rd : List (Team × Team)) :
    rd.flatMap (fun p => [p.1.team_id, p.2.team_id]) =
      (roundTeams rd).map Team.team_id := by
  rw [roundTeams, List.map_flatMap]
  rfl

theorem validate_eq_nil_of (teams : List Team) (ms : List Match)
    (hdup : (ms.map Match.pairKey).Nodup)
    (hself : ∀ mm ∈ ms, mm.home_team_id ≠ mm.away_team_id)
    (href : ∀ mm ∈ ms, mm.home_team_id ∈ teams.map Team.team_id ∧
      mm.away_team_id ∈ teams.map Team.team_id)
    (hweek : ∀ w : Int, (ms.flatMap (fun mm =>
      if mm.week = w then [mm.home_team_id, mm.away_team_id] else [])).Nodup) :
    ∀ L : League, L.teams = teams → L.«matches» = ms →
      validate_fixtures L = (true, []) := by
  intro L hT hM
  have h1 : dupScan ms [] = [] :=
    dupScan_eq_nil ms [] hdup (fun mm _ => List.not_mem_nil mm.pairKey)
  have h2 : selfErrors ms = [] :=
    List.filterMap_eq_nil_iff.mpr (fun mm hm => if_neg (hself mm hm))
  have h3 : refErrors teams ms = [] := by
    show ms.flatMap (fun m =>
      (if m.home_team_id ∈ teams.map Team.team_id then []
       else ["Invalid home team ID in " ++ m.match_id ++ ": " ++ m.home_team_id]) ++
      (if m.away_team_id ∈ teams.map Team.team_id then []
       else ["Invalid away team ID in " ++ m.match_id ++ ": " ++ m.away_team_id])) = []
    apply List.flatMap_eq_nil_iff.mpr
    intro mm hm
    rw [if_pos (href mm hm).1, if_pos (href mm hm).2]
    rfl
  have h4 : weekScan ms (fun _ => []) = [] := by
    apply weekScan_eq_nil
    intro w
    simpa using hweek w
  simp only [validate_fixtures]
  rw [hT, hM, h1, h2, h3, h4]
  rfl

theorem generated_matches_valid (a : Team) (c : List Team) (dateOf : Nat → String)
    (hc : c ≠ []) (hodd : Odd c.length)
    (hnd : ((a :: c).map Team.team_id).Nodup)
    (hbye : ∀ t ∈ a :: c, t.team_id ≠ "bye")
    (BAL : List (List (Team × Team)))
    (hBlen : BAL.length = c.length)
    (hf2 : ∀ r, r < c.length → List.Forall₂ pairSwapR (BAL.getD r [])
      (mkRound (c.length + 1) r (pyRotate^[r] (a :: c)))) :
    ((BAL.enum.flatMap (fun ri => ri.2.map (fixtureOf dateOf ri.1))).map
      Match.pairKey).Nodup ∧
    (∀ mm ∈ BAL.enum.flatMap (fun ri => ri.2.map (fixtureOf dateOf ri.1)),
      mm.home_team_id ≠ mm.away_team_id ∧
      mm.home_team_id ∈ (a :: c).map Team.team_id ∧
      mm.away_team_id ∈ (a :: c).map Team.team_id) ∧
    (∀ w : Int, ((BAL.enum.flatMap (fun ri => ri.2.map (fixtureOf dateOf ri.1))).flatMap
      (fun mm => if mm.week = w then [mm.home_team_id, mm.away_team_id] else [])).Nodup) := by
  have hmsE : BAL.enum.flatMap (fun ri => ri.2.map (fixtureOf dateOf ri.1)) =
      (List.range c.length).flatMap (fun r => (BAL.getD r []).map (fixtureOf dateOf r)) := by
    rw [enum_flatMap (fun ri => ri.2.map (fixtureOf dateOf ri.1))
      ([] : List (Team × Team)) BAL, hBlen]
  refine ⟨?_, ?_, ?_⟩
  · rw [hmsE, List.map_flatMap]
    have hcong : ∀ r ∈ List.range c.length,
        ((BAL.getD r []).map (fixtureOf dateOf r)).map Match.pairKey =
          (List.range ((c.length + 1) / 2)).map (slotKey a c r) := by
      intro r hr
      rw [List.mem_range] at hr
      rw [List.map_map]
      have h1 : (BAL.getD r []).map (Match.pairKey ∘ fixtureOf dateOf r) =
          (BAL.getD r []).map pairIdOf := rfl
      rw [h1, forall2_map_eq pairIdOf_resp (hf2 r hr),
        mkRound_map_pairIdOf a c hc hodd hbye r]
    rw [List.flatMap_congr hcong]
    exact allKeys_nodup a c hc hodd hnd
  · intro mm hmm
    rw [hmsE] at hmm
    obtain ⟨r, hrmem, hmm2⟩ := List.mem_flatMap.mp hmm
    rw [List.mem_range] at hrmem
    obtain ⟨p, hp, rfl⟩ := List.mem_map.mp hmm2
    obtain ⟨q, hq, hpq⟩ := forall2_mem_left (hf2 r hrmem) p hp
    rw [mkRound_eq_map a c hc hodd hbye r] at hq
    obtain ⟨i, hi, hqe⟩ := List.mem_map.mp hq
    rw [List.mem_range] at hi
    have hporient : p = slotPre a c r i ∨
        p = ((slotPre a c r i).2, (slotPre a c r i).1) := by
      rcases hpq with hpq | hpq
      · rw [← hqe] at hpq
        split_ifs at hpq
        · exact Or.inl hpq
        · exact Or.inr hpq
      · rw [← hqe] at hpq
        split_ifs at hpq
        · exact Or.inr hpq
        · left
          simpa using hpq
    have hfacts : p.1.team_id ≠ p.2.team_id ∧ p.1 ∈ a :: c ∧ p.2 ∈ a :: c := by
      rcases hporient with rfl | rfl
      · exact ⟨slotPre_ids_ne a c hc hodd hnd hi, slotPre_fst_mem a c hc r i,
          slotPre_snd_mem a c hc r i⟩
      · exact ⟨(slotPre_ids_ne a c hc hodd hnd hi).symm, slotPre_snd_mem a c hc r i,
          slotPre_fst_mem a c hc r i⟩
    exact ⟨hfacts.1, List.mem_map_of_mem Team.team_id hfacts.2.1,
      List.mem_map_of_mem Team.team_id hfacts.2.2⟩
  · intro w
    rw [hmsE]
    have hflat : ((List.range c.length).flatMap
        (fun r => (BAL.getD r []).map (fixtureOf dateOf r))).flatMap
          (fun mm => if mm.week = w then [mm.home_team_id, mm.away_team_id] else []) =
        (List.range c.length).flatMap (fun r =>
          if ((r : Int) + 1 = w) then
            (BAL.getD r []).flatMap (fun p => [p.1.team_id, p.2.team_id]) else []) := by
      rw [List.flatMap_assoc]
      apply List.flatMap_congr
      intro r _
      have h1 : ((BAL.getD r []).map (fixtureOf dateOf r)).flatMap
          (fun mm => if mm.week = w then [mm.home_team_id, mm.away_team_id] else []) =
          (BAL.getD r []).flatMap
            (fun p => if ((r : Int) + 1 = w) then [p.1.team_id, p.2.team_id] else []) := by
        rw [List.flatMap_map]
        rfl
      rw [h1, flatMap_ite_const ((r : Int) + 1 = w) (BAL.getD r [])
        (fun p => [p.1.team_id, p.2.team_id])]
    rw [hflat]
    by_cases hw : 1 ≤ w
    · apply nodup_flatMap_single
        (fun r => (BAL.getD r []).flatMap (fun p => [p.1.team_id, p.2.team_id]))
        ((w - 1).toNat) (fun r => by omega) ?_ (List.range c.length)
        (List.nodup_range c.length)
      show ((BAL.getD ((w - 1).toNat) []).flatMap
        (fun p => [p.1.team_id, p.2.team_id])).Nodup
      by_cases hk : (w - 1).toNat < c.length
      · have hstep1 := forall2_flatMap_perm
          (fun p : Team × Team => [p.1.team_id, p.2.team_id])
          (fun p q hpq => by
            rcases hpq with rfl | rfl
            · exact List.Perm.refl _
            · exact List.Perm.swap _ _ _)
          (hf2 _ hk)
        have hstep4 : ((mkRound (c.length + 1) ((w - 1).toNat)
            (pyRotate^[(w - 1).toNat] (a :: c))).flatMap
              (fun p => [p.1.team_id, p.2.team_id])).Perm
            ((a :: c).map Team.team_id) := by
          rw [roundTeams_map_id]
          exact (round_teams_perm a c hc hodd hbye ((w - 1).toNat)).map Team.team_id
        exact ((hstep1.trans hstep4).nodup_iff).mpr hnd
      · push_neg at hk
        have hempty : BAL.getD ((w - 1).toNat) [] = [] :=
          List.getD_eq_default _ _ (by omega)
        rw [hempty]
        simp
    · rw [flatMap_ite_nil]
      · exact List.nodup_nil
      · intro r _
        omega

/-- C10: on a league with an even roster of at least two teams whose ids
are pairwise distinct and none the sentinel `"bye"`,
`generate_fixtures` succeeds and the league it produces passes
`validate_fixtures` with no errors: no duplicate unordered pair, no
self-match, no dangling team reference, and no team twice in one week. -/
theorem c10_generated_fixtures_valid (L : League) (dateOf : Nat → String)
    (hlen : 2 ≤ L.teams.length) (heven : L.teams.length % 2 = 0)
    (hnd : (L.teams.map Team.team_id).Nodup)
    (hbye : ∀ t ∈ L.teams, t.team_id ≠ "bye") :
    (generate_fixtures L dateOf).2.1 = true ∧
    validate_fixtures (generate_fixtures L dateOf).1 = (true, []) := by
  obtain ⟨a, c, hT⟩ : ∃ a c, L.teams = a :: c := by
    cases hT : L.teams with
    | nil => rw [hT] at hlen; simp at hlen
    | cons a c => exact ⟨a, c, rfl⟩
  have hlen2 : 2 ≤ c.length + 1 := by
    rw [hT] at hlen
    simpa using hlen
  have heven2 : (c.length + 1) % 2 = 0 := by
    rw [hT] at heven
    simpa using heven
  have hnd2 : ((a :: c).map Team.team_id).Nodup := by rwa [hT] at hnd
  have hbye2 : ∀ t ∈ a :: c, t.team_id ≠ "bye" := by rwa [hT] at hbye
  have hc : c ≠ [] := by
    intro h
    rw [h] at hlen2
    simp at hlen2
  have hm : 0 < c.length := List.length_pos.mpr hc
  have hodd : Odd c.length := by
    rw [Nat.odd_iff]
    omega
  have hgen : generate_round_robin_pairs (a :: c) =
      (List.range c.length).map
        (fun r => mkRound (c.length + 1) r (pyRotate^[r] (a :: c))) := by
    unfold generate_round_robin_pairs
    simp only [List.length_cons]
    rw [if_neg (by omega), if_neg (by omega), Nat.add_sub_cancel, rrGo_eq_map]
    apply List.map_congr_left
    intro j _
    rw [Nat.zero_add]
  have hbal : balance_home_away_rotation ((List.range c.length).map
      (fun r => mkRound (c.length + 1) r (pyRotate^[r] (a :: c)))) =
      balGo { team_home_streak := fun _ => 0, team_away_streak := fun _ => 0 } 0
        ((List.range c.length).map
          (fun r => mkRound (c.length + 1) r (pyRotate^[r] (a :: c)))) := by
    unfold balance_home_away_rotation
    rw [if_neg (by
      intro h
      have hL := congrArg List.length h
      simp only [List.length_map, List.length_range, List.length_nil] at hL
      omega)]
  constructor
  · unfold generate_fixtures
    rw [if_neg (by omega), if_neg (by omega)]
  · have hfst : (generate_fixtures L dateOf).1 =
        { L with
          «matches» :=
            ((balGo { team_home_streak := fun _ => 0, team_away_streak := fun _ => 0 } 0
              ((List.range c.length).map
                (fun r => mkRound (c.length + 1) r (pyRotate^[r] (a :: c))))).enum.flatMap
              (fun ri => ri.2.map (fixtureOf dateOf ri.1))),
          fixtures_generated := true } := by
      simp only [generate_fixtures]
      rw [if_neg (by omega), if_neg (by omega), hT, hgen, hbal]
      rfl
    rw [hfst]
    have hBlen : (balGo { team_home_streak := fun _ => 0, team_away_streak := fun _ => 0 } 0
        ((List.range c.length).map
          (fun r => mkRound (c.length + 1) r (pyRotate^[r] (a :: c))))).length =
        c.length := by
      rw [balGo_length]
      simp
    have hf2 : ∀ r, r < c.length →
        List.Forall₂ pairSwapR
          ((balGo { team_home_streak := fun _ => 0, team_away_streak := fun _ => 0 } 0
            ((List.range c.length).map
              (fun j => mkRound (c.length + 1) j (pyRotate^[j] (a :: c))))).getD r [])
          (mkRound (c.length + 1) r (pyRotate^[r] (a :: c))) := by
      intro r hr
      have h2 := forall2_getD ([] : List (Team × Team)) ([] : List (Team × Team))
        (balGo_forall2
          ((List.range c.length).map
            (fun j => mkRound (c.length + 1) j (pyRotate^[j] (a :: c))))
          { team_home_streak := fun _ => 0, team_away_streak := fun _ => 0 } 0) r
        (by rw [balGo_length]; simpa using hr)
      have hr0 : ((List.range c.length).map
          (fun j => mkRound (c.length + 1) j (pyRotate^[j] (a :: c)))).getD r [] =
          mkRound (c.length + 1) r (pyRotate^[r] (a :: c)) := by
        rw [List.getD_eq_getElem _ _ (by simpa using hr)]
        simp
      rw [hr0] at h2
      exact h2
    obtain ⟨hdup, hself, hweek⟩ :=
      generated_matches_valid a c dateOf hc hodd hnd2 hbye2 _ hBlen hf2
    exact validate_eq_nil_of (a :: c) _ hdup (fun mm hm2 => (hself mm hm2).1)
      (fun mm hm2 => ⟨(hself mm hm2).2.1, (hself mm hm2).2.2⟩) hweek _ hT rfl

theorem c10_generated_fixtures_valid_witness :
    (2 ≤ leaguePrev.teams.length ∧ leaguePrev.teams.length % 2 = 0 ∧
      (leaguePrev.teams.map Team.team_id).Nodup ∧
      ∀ t ∈ leaguePrev.teams, t.team_id ≠ "bye") ∧
    ((generate_fixtures leaguePrev (fun _ => "d")).2.1 = true ∧
      validate_fixtures (generate_fixtures leaguePrev (fun _ => "d")).1 = (true, [])) :=
  ⟨⟨by decide, by decide, by decide, by decide⟩,
    c10_generated_fixtures_valid leaguePrev (fun _ => "d")
      (by decide) (by decide) (by decide) (by decide)⟩

end FootballLeague